import Mathlib

/-!
# osm2pgsql: a shallow embedding of `osm2pgsql.c`

The embedding follows the C source function by function.

* C strings are `String`s (no embedded NUL); `strcmp` only matters through its sign.
* `unsigned int` is a `Nat` below `2 ^ 32`; `strtoul` is the LP64 libc function, and the
  assignment to an `unsigned int` variable truncates modulo `2 ^ 32`.
* A `double` is kept as its IEEE-754 binary64 fields, so the comparisons `<` and `>` used by
  `compare_node` are exact (NaN and the two zeros included).
* The static arrays `nodes` and `segments` are total functions on indices; every read or
  write is guarded, and an index past the end of the array is a fault.
* The circular doubly linked `keyval` lists are `List`s in `head->next` order.
* The libavl tables hold pointers; a pointer into `nodes`/`segments` is the slot index.
* `assert` failures and out-of-range accesses end the run: `Result.fault` keeps the state
  at that moment.
* The diagnostics written to `stderr`, allocation failures and overflow of the `int`
  counters are left out.
-/

namespace Osm2pgsql

/-! ## Machine values -/

/-- An IEEE-754 binary64 value: sign bit, biased exponent (`0 .. 2047`) and 52-bit fraction. -/
structure Dbl where
  sign : Bool
  expo : Nat
  frac : Nat
deriving DecidableEq, Repr

/-- A NaN has all exponent bits set and a non-zero fraction. -/
def Dbl.isNaN (d : Dbl) : Bool := d.expo == 2047 && d.frac != 0

/-- Sign-magnitude key: on non-NaN values the numeric order is the order of the keys
(both zeros have key `0`). -/
def Dbl.key (d : Dbl) : Int :=
  if d.sign then -((d.expo * 2 ^ 52 + d.frac : Nat) : Int) else ((d.expo * 2 ^ 52 + d.frac : Nat) : Int)

/-- The C comparison `a < b` on doubles: false as soon as one side is a NaN. -/
def Dbl.lt (a b : Dbl) : Bool := !a.isNaN && !b.isNaN && decide (a.key < b.key)

/-- The C comparison `a == b` on doubles. -/
def Dbl.eq (a b : Dbl) : Bool := !a.isNaN && !b.isNaN && decide (a.key = b.key)

/-- Position of the leading binary digit of `n`, for `n` below `2 ^ fuel`. -/
def leadingBit : Nat → Nat → Nat
  | 0, _ => 0
  | fuel + 1, n => if n < 2 then 0 else leadingBit fuel (n / 2) + 1

/-- The double whose value is the natural number `n` (exact for `n < 2 ^ 53`). -/
def Dbl.ofNat (n : Nat) : Dbl :=
  if n = 0 then ⟨false, 0, 0⟩
  else ⟨false, 1023 + leadingBit 64 n, (n - 2 ^ leadingBit 64 n) * 2 ^ (52 - leadingBit 64 n)⟩

def UINT_MOD : Nat := 2 ^ 32

def ULONG_MAX : Nat := 2 ^ 64 - 1

/-- The libc `isspace` in the C locale. -/
def isspace (c : Char) : Bool :=
  c == ' ' || c == '\t' || c == '\n' || c == '\x0b' || c == '\x0c' || c == '\r'

/-- Value of the leading run of decimal digits, continuing from `acc`. -/
def digitsValue : List Char → Nat → Nat
  | [], acc => acc
  | c :: cs, acc => if c.isDigit then digitsValue cs (acc * 10 + (c.toNat - 48)) else acc

/-- The libc `strtoul(s, NULL, 10)` for a 64-bit `unsigned long`: leading white space, an
optional sign, the digits; `ULONG_MAX` on overflow; a `-` negates in `unsigned long`. -/
def strtoul (s : String) : Nat :=
  let body := s.data.dropWhile isspace
  let neg := body.head? == some '-'
  let digits := if body.head? == some '-' || body.head? == some '+' then body.tail else body
  let v := digitsValue digits 0
  if v > ULONG_MAX then ULONG_MAX
  else if neg then (ULONG_MAX + 1 - v) % (ULONG_MAX + 1) else v

/-- The statement `id = strtoul(x, NULL, 10)` with `unsigned int id`. -/
def strtoulUInt (s : String) : Nat := strtoul s % UINT_MOD

/-- The conversion `asprintf(&tmp, "%d", id)` of an `unsigned int` read as an `int`. -/
def fmt_d (id : Nat) : String :=
  if id < 2 ^ 31 then Nat.repr id else "-" ++ Nat.repr (UINT_MOD - id)

/-- The sign of `strcmp` on the character lists of two strings. -/
def strcmpChars : List Char → List Char → Int
  | [], [] => 0
  | [], _ :: _ => -1
  | _ :: _, [] => 1
  | x :: xs, y :: ys => if x = y then strcmpChars xs ys else if x < y then -1 else 1

/-- The libc `strcmp`, up to the magnitude of a non-zero result. -/
def strcmp (a b : String) : Int := strcmpChars a.data b.data

/-! ## Static data -/

structure tagDesc where
  name : String
  type : String
  polygon : Nat
deriving DecidableEq, Repr

def exportTags : List tagDesc := [
  ⟨"name", "text", 0⟩,
  ⟨"place", "text", 0⟩,
  ⟨"landuse", "text", 1⟩,
  ⟨"leisure", "text", 1⟩,
  ⟨"natural", "text", 1⟩,
  ⟨"man_made", "text", 0⟩,
  ⟨"waterway", "text", 0⟩,
  ⟨"highway", "text", 0⟩,
  ⟨"railway", "text", 0⟩,
  ⟨"amenity", "text", 1⟩,
  ⟨"tourism", "text", 0⟩,
  ⟨"learning", "text", 0⟩]

def table_name : String := "planet_osm"

def MAX_ID_NODE : Nat := 35000000

def MAX_ID_SEGMENT : Nat := 35000000

structure osmNode where
  id : Nat
  lon : Dbl
  lat : Dbl
deriving DecidableEq, Repr

structure osmSegment where
  id : Nat
  from_ : Nat
  to_ : Nat
deriving DecidableEq, Repr

structure osmWay where
  id : Nat
  values : String
  wkt : String
deriving DecidableEq, Repr

structure keyval where
  key : String
  value : String
deriving DecidableEq, Repr

/-! ## The `keyval` lists -/

def countList (head : List keyval) : Nat := head.length

def listHasData (head : List keyval) : Bool := !head.isEmpty

/-- First entry from the head whose key is `name`; `none` is the C `NULL`. -/
def getItem : List keyval → String → Option String
  | [], _ => none
  | p :: rest, name => if strcmp p.key name = 0 then some p.value else getItem rest name

/-- Unlinks `head->next`; `none` when the list is empty. -/
def popItem : List keyval → Option keyval × List keyval
  | [] => (none, [])
  | p :: rest => (some p, rest)

/-- Links `item` before the head, that is at the tail of the list. -/
def pushItem (head : List keyval) (item : keyval) : List keyval := head ++ [item]

/-- The duplicate scan of `addItem` when `noDupe` is set. -/
def addItemScan : List keyval → String → String → Bool
  | [], _, _ => false
  | item :: rest, name, value =>
    if strcmp item.value value = 0 ∧ strcmp item.key name = 0 then true
    else addItemScan rest name value

/-- Returns the C return code (`1`: discarded as duplicate, `0`: linked right after the
head) and the list afterwards. -/
def addItem (head : List keyval) (name value : String) (noDupe : Bool) : Nat × List keyval :=
  if noDupe && addItemScan head name value then (1, head)
  else (0, ⟨name, value⟩ :: head)

/-- The loop `while ((item = popItem(head))) freeItem(item);`. -/
def resetList : List keyval → List keyval
  | [] => []
  | _ :: rest => resetList rest

/-! ## The libavl tables -/

/-- Modelled from the spec: the generic dedup-tree utility (`bst.h`, `avl.h`: `bst_insert`,
`avl_insert`), whose contract is `insert_or_find(item, comparator) -> existing-or-null`.
The table is an ordered set; the probe returns the member that the comparator finds
equivalent to `item` (the earliest inserted one), and otherwise adds `item` and returns
`none`. The comparator is called as `compare(item, member)`. -/
def insert_or_find {α : Type} (compare : α → α → Int) (table : List α) (item : α) :
    Option α × List α :=
  match table.find? (fun member => compare item member == 0) with
  | some member => (some member, table)
  | none => (none, table ++ [item])

/-- Comparator of `node_positions`; `a` and `b` are pointers into `nodes`. -/
def compare_node (nodes : Nat → osmNode) (a b : Nat) : Int :=
  if a = b then 0
  else if (nodes a).id = (nodes b).id then 0
  else if (nodes a).lon.lt (nodes b).lon then -1
  else if (nodes b).lon.lt (nodes a).lon then 1
  else if (nodes a).lat.lt (nodes b).lat then -1
  else if (nodes b).lat.lt (nodes a).lat then 1
  else 0

/-- Comparator of `segment_unique`; `a` and `b` are pointers into `segments`. -/
def compare_segment (segments : Nat → osmSegment) (a b : Nat) : Int :=
  if a = b then 0
  else if (segments a).id = (segments b).id then 0
  else if (segments a).from_ < (segments b).from_ then -1
  else if (segments a).from_ > (segments b).from_ then 1
  else if (segments a).to_ < (segments b).to_ then -1
  else if (segments a).to_ > (segments b).to_ then 1
  else 0

/-- Comparator of `way_tree`. The records are heap cells of their own, so the pointer test
`wA == wB` can only hold for one and the same record, which the test on `id` covers. -/
def compare_way (wA wB : osmWay) : Int :=
  if wA.id = wB.id then 0
  else if strcmp wA.wkt wB.wkt ≠ 0 then strcmp wA.wkt wB.wkt
  else strcmp wA.values wB.values

/-! ## The environment: libc conversions of doubles and the geometry builder -/

/-- What the program takes from outside: `strtod`, the `%.15g` conversion of `printf`, and
the geometry builder of `build_geometry.h` with a state of its own. -/
structure Env where
  strtod : String → Dbl
  fmt_g15 : Dbl → String
  Geom : Type
  add_segment : Geom → Dbl → Dbl → Dbl → Dbl → Geom
  build_geometry : Geom → Nat → Geom × Nat
  get_wkt : Geom → Nat → String
  clear_wkts : Geom → Geom

/-- A call made to the geometry builder. -/
inductive GeomCall where
  | add_segment (x0 y0 x1 y1 : Dbl)
  | build_geometry (polygon : Nat)
  | get_wkt (i : Nat)
  | clear_wkts
deriving DecidableEq, Repr

/-- One `insert into` statement written to `stdout`, kept as the arguments of its `printf`. -/
structure Row where
  names : String
  osm_id : String
  values : String
  wkt : String
deriving DecidableEq, Repr

/-- The text that the `printf` of a row writes. -/
def Row.text (r : Row) : String :=
  "insert into " ++ table_name ++ " (osm_id," ++ r.names ++ ",way) values (" ++ r.osm_id ++ ","
    ++ r.values ++ ",GeomFromText('" ++ r.wkt ++ "',4326));\n"

inductive Fault where
  | assertFailed (line : Nat)
  | outOfRange (line : Nat)
deriving DecidableEq, Repr

inductive Result (σ : Type) where
  | ok (s : σ)
  | fault (f : Fault) (s : σ)

def Result.isOk {σ : Type} : Result σ → Bool
  | .ok _ => true
  | .fault _ _ => false

/-- The state in which the call ended, by return or by fault. -/
def Result.state {σ : Type} : Result σ → σ
  | .ok s => s
  | .fault _ s => s

/-- The globals of the program, the rows written so far, the state of the geometry builder
and the calls made to it. -/
structure State (env : Env) where
  nodes : Nat → osmNode
  segments : Nat → osmSegment
  node_positions : List Nat
  segment_unique : List Nat
  way_tree : List osmWay
  count_node : Nat
  count_all_node : Nat
  count_dupe_node : Nat
  count_segment : Nat
  count_all_segment : Nat
  count_dupe_segment : Nat
  count_way : Nat
  count_all_way : Nat
  count_dupe_way : Nat
  count_way_seg : Nat
  suppress_dupes : Bool
  keys : List keyval
  tags : List keyval
  segs : List keyval
  out : List Row
  geom : env.Geom
  calls : List GeomCall

/-- The state at the start of `main`: zeroed arrays, empty tables and lists. The source
compiles `suppress_dupes` as `0`; its comment asks to enable it by hand. -/
def initState (env : Env) (g : env.Geom) (suppress_dupes : Bool) : State env where
  nodes := fun _ => ⟨0, ⟨false, 0, 0⟩, ⟨false, 0, 0⟩⟩
  segments := fun _ => ⟨0, 0, 0⟩
  node_positions := []
  segment_unique := []
  way_tree := []
  count_node := 0
  count_all_node := 0
  count_dupe_node := 0
  count_segment := 0
  count_all_segment := 0
  count_dupe_segment := 0
  count_way := 0
  count_all_way := 0
  count_dupe_way := 0
  count_way_seg := 0
  suppress_dupes := suppress_dupes
  keys := []
  tags := []
  segs := []
  out := []
  geom := g
  calls := []

/-- The attributes of the element the reader stands on. -/
abbrev Reader := List (String × String)

/-- First attribute called `name`; `none` is the C `NULL`. -/
def xmlTextReaderGetAttribute : Reader → String → Option String
  | [], _ => none
  | (k, v) :: rest, name => if k = name then some v else xmlTextReaderGetAttribute rest name

/-- The array write `a[i] = v`. -/
def setSlot {α : Type} (a : Nat → α) (i : Nat) (v : α) : Nat → α :=
  fun j => if j = i then v else a j

/-! ## `WKT` -/

/-- The loop of `WKT`: pops every entry of `segs`, reads the segment and its two nodes and
hands the coordinates to `add_segment`. -/
def WKT_loop (env : Env) : List keyval → State env → Result (State env)
  | [], s => .ok { s with segs := [] }
  | p :: rest, s =>
    let id := strtoulUInt p.value
    if id > MAX_ID_SEGMENT then .fault (.outOfRange 250) { s with segs := rest }
    else
      let from_ := (s.segments id).from_
      let to_ := (s.segments id).to_
      if from_ > MAX_ID_NODE then .fault (.outOfRange 253) { s with segs := rest }
      else if to_ > MAX_ID_NODE then .fault (.outOfRange 255) { s with segs := rest }
      else
        let x0 := (s.nodes from_).lon
        let y0 := (s.nodes from_).lat
        let x1 := (s.nodes to_).lon
        let y1 := (s.nodes to_).lat
        WKT_loop env rest
          { s with
            segs := rest
            geom := env.add_segment s.geom x0 y0 x1 y1
            calls := s.calls ++ [.add_segment x0 y0 x1 y1] }

/-- The function `WKT(polygon)`: the state afterwards and the count `build_geometry` returned. -/
def WKT (env : Env) (s : State env) (polygon : Nat) : Result (State env) × Nat :=
  match WKT_loop env s.segs s with
  | .fault f s1 => (.fault f s1, 0)
  | .ok s1 =>
    (.ok { s1 with
           geom := (env.build_geometry s1.geom polygon).1
           calls := s1.calls ++ [.build_geometry polygon] },
     (env.build_geometry s1.geom polygon).2)

/-! ## `StartElement` -/

/-- The branch `node` of `StartElement`. -/
def StartElement_node (env : Env) (s : State env) (reader : Reader) : Result (State env) :=
  match xmlTextReaderGetAttribute reader "id", xmlTextReaderGetAttribute reader "lon",
      xmlTextReaderGetAttribute reader "lat" with
  | some xid, some xlon, some xlat =>
    let id := strtoulUInt xid
    let lon := env.strtod xlon
    let lat := env.strtod xlat
    if ¬ (id > 0 ∧ id < MAX_ID_NODE) then .fault (.assertFailed 280) s
    else
      let nodes := setSlot s.nodes id ⟨id, lon, lat⟩
      let probe : Option Nat × List Nat :=
        if s.suppress_dupes then insert_or_find (compare_node nodes) s.node_positions id
        else (none, s.node_positions)
      match probe.1 with
      | none =>
        .ok { s with
              count_all_node := s.count_all_node + 1
              nodes := nodes
              node_positions := probe.2
              keys := (addItem s.keys "id" xid false).2 }
      | some dupe =>
        .ok { s with
              count_all_node := s.count_all_node + 1
              nodes := setSlot nodes id ⟨(nodes dupe).id, lon, lat⟩
              node_positions := probe.2
              count_dupe_node := s.count_dupe_node + 1
              keys := (addItem s.keys "id" xid false).2 }
  | _, _, _ => .fault (.assertFailed 275) s

/-- The branch `segment` of `StartElement`. `bst_balance` leaves the members of
`node_positions` as they are. -/
def StartElement_segment (env : Env) (s : State env) (reader : Reader) : Result (State env) :=
  match xmlTextReaderGetAttribute reader "id", xmlTextReaderGetAttribute reader "from",
      xmlTextReaderGetAttribute reader "to" with
  | some xid, some xfrom, some xto =>
    let id := strtoulUInt xid
    let from_ := strtoulUInt xfrom
    let to_ := strtoulUInt xto
    if ¬ (id > 0 ∧ id < MAX_ID_SEGMENT) then .fault (.assertFailed 313) s
    else
      let s := { s with count_all_segment := s.count_all_segment + 1 }
      if to_ > MAX_ID_NODE then .fault (.outOfRange 324) s
      else if (s.nodes to_).id = 0 then .ok s
      else if from_ > MAX_ID_NODE then .fault (.outOfRange 326) s
      else if (s.nodes from_).id = 0 then .ok s
      else
        let from_ := (s.nodes from_).id
        let to_ := (s.nodes to_).id
        if from_ ≠ to_ then
          let segments := setSlot s.segments id ⟨id, from_, to_⟩
          let probe : Option Nat × List Nat :=
            if s.suppress_dupes then insert_or_find (compare_segment segments) s.segment_unique id
            else (none, s.segment_unique)
          match probe.1 with
          | none =>
            .ok { s with
                  segments := segments
                  segment_unique := probe.2
                  count_segment := s.count_segment + 1 }
          | some dupe =>
            .ok { s with
                  segments := setSlot segments id ⟨(segments dupe).id, from_, to_⟩
                  segment_unique := probe.2
                  count_dupe_segment := s.count_dupe_segment + 1 }
        else .ok s
  | _, _, _ => .fault (.assertFailed 308) s

/-- One round of `while ((p = strchr(k, c))) *p = '_';`: the first `c` becomes `_`;
`none` when `strchr` finds nothing. -/
def replaceFirst (c : Char) : List Char → Option (List Char)
  | [] => none
  | x :: xs =>
    if x = c then some ('_' :: xs)
    else match replaceFirst c xs with
      | none => none
      | some ys => some (x :: ys)

/-- The loop `while ((p = strchr(k, c))) *p = '_';` for `c` one of `:` and the blank. -/
def replaceLoop (c : Char) (hc : c ≠ '_') (k : List Char) : List Char :=
  match h : replaceFirst c k with
  | none => k
  | some k2 => replaceLoop c hc k2
termination_by k.count c
decreasing_by
  have key : ∀ (l l2 : List Char), replaceFirst c l = some l2 → l2.count c < l.count c := by
    intro l
    induction l with
    | nil => intro l2 h0; simp [replaceFirst] at h0
    | cons x xs ih =>
      intro l2 h0
      unfold replaceFirst at h0
      split at h0
      · rename_i hx
        cases h0
        have h1 : ('_' == c) = false := by
          simp only [beq_eq_false_iff_ne, ne_eq]
          exact fun e => hc e.symm
        simp [List.count_cons, hx, h1]
      · rename_i hx
        split at h0
        · simp at h0
        · rename_i ys hys
          cases h0
          have := ih ys hys
          simp only [List.count_cons]
          omega
  exact key k k2 h

/-- The branch `tag` of `StartElement`. -/
def StartElement_tag (env : Env) (s : State env) (reader : Reader) : Result (State env) :=
  match xmlTextReaderGetAttribute reader "k", xmlTextReaderGetAttribute reader "v" with
  | some xk, some xv =>
    let k := replaceLoop ' ' (by decide) (replaceLoop ':' (by decide) xk.data)
    .ok { s with tags := (addItem s.tags (String.mk k) xv false).2 }
  | _, _ => .fault (.assertFailed 358) s

/-- The branch `way` of `StartElement`. -/
def StartElement_way (env : Env) (s : State env) (reader : Reader) : Result (State env) :=
  match xmlTextReaderGetAttribute reader "id" with
  | some xid =>
    .ok { s with
          keys := (addItem s.keys "id" xid false).2
          count_all_way := s.count_all_way + 1 }
  | none => .fault (.assertFailed 372) s

/-- The branch `seg` of `StartElement`. -/
def StartElement_seg (env : Env) (s : State env) (reader : Reader) : Result (State env) :=
  match xmlTextReaderGetAttribute reader "id" with
  | some xid =>
    let id := strtoulUInt xid
    if id = 0 ∨ id > MAX_ID_SEGMENT then .ok s
    else if (s.segments id).id = 0 then .ok s
    else
      let id := (s.segments id).id
      let tmp := fmt_d id
      if (addItem s.segs "id" tmp true).1 ≠ 0 then
        .ok { s with
              segs := (addItem s.segs "id" tmp true).2
              count_way_seg := s.count_way_seg + 1 }
      else .ok { s with segs := (addItem s.segs "id" tmp true).2 }
  | none => .fault (.assertFailed 386) s

def StartElement (env : Env) (s : State env) (reader : Reader) (name : String) :
    Result (State env) :=
  if name = "node" then StartElement_node env s reader
  else if name = "segment" then StartElement_segment env s reader
  else if name = "tag" then StartElement_tag env s reader
  else if name = "way" then StartElement_way env s reader
  else if name = "seg" then StartElement_seg env s reader
  else .ok s

/-! ## `EndElement` -/

/-- The loop over `exportTags` of `EndElement`, from entry `i` on: `names`, `values` and
`polygon` are the C variables (`none` is `NULL`). The branch `node` runs the same loop
without the line `polygon |= exportTags[i].polygon`, and reads `names` and `values` only. -/
def exportLoop (tags : List keyval) :
    List tagDesc → Option String × Option String × Nat → Option String × Option String × Nat
  | [], acc => acc
  | t :: rest, (names, values, polygon) =>
    match getItem tags t.name with
    | some v =>
      match values with
      | some oldval =>
        exportLoop tags rest
          (some (names.getD "(null)" ++ ",\"" ++ t.name ++ "\""),
           some (oldval ++ ",$$" ++ v ++ "$$"),
           polygon ||| t.polygon)
      | none =>
        exportLoop tags rest
          (some ("\"" ++ t.name ++ "\""), some ("$$" ++ v ++ "$$"), polygon ||| t.polygon)
    | none => exportLoop tags rest (names, values, polygon)

/-- The text `snprintf` writes for `"POINT(%.15g %.15g)"`; it stays far below `WKT_MAX`. -/
def pointWkt (env : Env) (lon lat : Dbl) : String :=
  "POINT(" ++ env.fmt_g15 lon ++ " " ++ env.fmt_g15 lat ++ ")"

/-- The branch `node` of `EndElement`. -/
def EndElement_node (env : Env) (s : State env) : Result (State env) :=
  match getItem s.keys "id" with
  | none => .ok { s with keys := resetList s.keys, tags := resetList s.tags }
  | some osm_id =>
    let id := strtoulUInt osm_id
    if id > MAX_ID_NODE then .fault (.outOfRange 431) s
    else if (s.nodes id).id = 0 then .fault (.assertFailed 431) s
    else
      let acc := exportLoop s.tags exportTags (none, none, 0)
      match acc.2.1 with
      | some values =>
        .ok { s with
              count_node := s.count_node + 1
              out := s.out ++ [⟨acc.1.getD "(null)", osm_id, values,
                pointWkt env (s.nodes id).lon (s.nodes id).lat⟩]
              keys := resetList s.keys
              tags := resetList s.tags }
      | none => .ok { s with keys := resetList s.keys, tags := resetList s.tags }

/-- The test `assert(way->wkt[i])` on the copy of a text: the character at `i` is read,
the terminating NUL sits at index `strlen`, and past it the read leaves the text. -/
def assertWktChar (wkt : String) (i : Nat) : Option Fault :=
  if i < wkt.length then none
  else if i = wkt.length then some (.assertFailed 529)
  else some (.outOfRange 529)

/-- The loop `for (i=0;i<wkt_size;i++)` of the branch `way`, with `n` rounds left. -/
def wayLoop (env : Env) (id : Nat) (names osm_id values : String) :
    Nat → Nat → State env → Result (State env)
  | 0, _, s => .ok s
  | n + 1, i, s =>
    let wkt := env.get_wkt s.geom i
    let s := { s with calls := s.calls ++ [.get_wkt i] }
    if wkt.length ≠ 0 then
      if s.suppress_dupes then
        match assertWktChar wkt i with
        | some f => .fault f s
        | none =>
          match (insert_or_find compare_way s.way_tree ⟨id, values, wkt⟩).1 with
          | some _ =>
            wayLoop env id names osm_id values n (i + 1)
              { s with
                way_tree := (insert_or_find compare_way s.way_tree ⟨id, values, wkt⟩).2
                count_dupe_way := s.count_dupe_way + 1 }
          | none =>
            wayLoop env id names osm_id values n (i + 1)
              { s with
                way_tree := (insert_or_find compare_way s.way_tree ⟨id, values, wkt⟩).2
                out := s.out ++ [⟨names, osm_id, values, wkt⟩]
                count_way := s.count_way + 1 }
      else
        wayLoop env id names osm_id values n (i + 1)
          { s with
            out := s.out ++ [⟨names, osm_id, values, wkt⟩]
            count_way := s.count_way + 1 }
    else wayLoop env id names osm_id values n (i + 1) s

/-- The three `resetList` calls that end the branch `way`. -/
def resetAll {env : Env} (s : State env) : State env :=
  { s with keys := resetList s.keys, tags := resetList s.tags, segs := resetList s.segs }

/-- The branch `way` of `EndElement`. -/
def EndElement_way (env : Env) (s : State env) : Result (State env) :=
  match getItem s.keys "id" with
  | none => .ok (resetAll s)
  | some osm_id =>
    if ¬ listHasData s.segs then .ok (resetAll s)
    else
      let id := strtoulUInt osm_id
      let acc := exportLoop s.tags exportTags (none, none, 0)
      match acc.2.1 with
      | some values =>
        match WKT env s acc.2.2 with
        | (.fault f s1, _) => .fault f s1
        | (.ok s1, wkt_size) =>
          if wkt_size ≠ 0 then
            match wayLoop env id (acc.1.getD "(null)") osm_id values wkt_size 0 s1 with
            | .fault f s2 => .fault f s2
            | .ok s2 =>
              .ok (resetAll
                { s2 with geom := env.clear_wkts s2.geom, calls := s2.calls ++ [.clear_wkts] })
          else .ok (resetAll s1)
      | none => .ok (resetAll s)

def EndElement (env : Env) (s : State env) (name : String) : Result (State env) :=
  if name = "node" then EndElement_node env s
  else if name = "segment" then .ok { s with tags := resetList s.tags }
  else if name = "tag" then .ok s
  else if name = "way" then EndElement_way env s
  else .ok s

/-! ## The stream of events -/

/-- What `processNode` dispatches on: an opening element with its attributes, or a closing
element. A self-closing element is an opening followed by a closing of the same name. -/
inductive Event where
  | start (reader : Reader) (name : String)
  | stop (name : String)
deriving DecidableEq, Repr

def processNode (env : Env) (s : State env) : Event → Result (State env)
  | .start reader name => StartElement env s reader name
  | .stop name => EndElement env s name

/-- The loop of `streamFile`; a fault ends the run. -/
def streamFile (env : Env) : List Event → State env → Result (State env)
  | [], s => .ok s
  | e :: rest, s =>
    match processNode env s e with
    | .ok s1 => streamFile env rest s1
    | .fault f s1 => .fault f s1

/-- The attributes of `<node id=.. lon=.. lat=..>`. -/
def nodeReader (xid xlon xlat : String) : Reader := [("id", xid), ("lon", xlon), ("lat", xlat)]

/-- The attributes of `<segment id=.. from=.. to=..>`. -/
def segmentReader (xid xfrom xto : String) : Reader := [("id", xid), ("from", xfrom), ("to", xto)]

/-! ## A sample environment -/

/-- Integer value of a non-negative double with an integral value below `2 ^ 53`. -/
def Dbl.toNat (d : Dbl) : Nat :=
  if d.expo < 1023 then 0
  else (2 ^ 52 + d.frac) * 2 ^ (d.expo - 1023) / 2 ^ 52

/-- An environment to evaluate the program in. Its `strtod` and `%.15g` agree with libc on
the unsigned decimal integers below `2 ^ 53` and its `strtod` on the text `nan` (a quiet
NaN), which is all the examples use. Its geometry
builder collects the segments and produces the texts `texts`, whatever the segments are. -/
def sampleEnv (texts : List String) : Env where
  strtod := fun x => if x = "nan" then ⟨false, 2047, 2 ^ 51⟩ else Dbl.ofNat (digitsValue x.data 0)
  fmt_g15 := fun d => Nat.repr d.toNat
  Geom := List (Dbl × Dbl × Dbl × Dbl) × List String
  add_segment := fun g x0 y0 x1 y1 => (g.1 ++ [(x0, y0, x1, y1)], g.2)
  build_geometry := fun _ _ => (([], texts), texts.length)
  get_wkt := fun g i => g.2.getD i ""
  clear_wkts := fun g => (g.1, [])

/-! ## The export schema as the specification words it -/

/-- Some tag of the record has the key `name`. -/
def occursAsKey (tags : List keyval) (name : String) : Bool := tags.any (fun kv => kv.key == name)

/-- The export schema, in schema order, filtered to the names present in the record. -/
def exportedColumns (tags : List keyval) : List tagDesc :=
  exportTags.filter (fun t => occursAsKey tags t.name)

/-- A column name as it is written: in double quotes. -/
def quoteName (t : tagDesc) : String := "\"" ++ t.name ++ "\""

/-- A value as it is written: between `$$`. -/
def quoteValue (v : String) : String := "$$" ++ v ++ "$$"

/-- The value written for a schema entry: that of the first tag of the record, from the head
of the tag list, whose key is the entry's name. -/
def columnValue (tags : List keyval) (t : tagDesc) : String :=
  quoteValue ((getItem tags t.name).getD "")

/-- The comma separated text of a non-empty list; `none` (no text at all) for the empty one. -/
def commaText : List String → Option String
  | [] => none
  | x :: xs => some (String.intercalate "," (x :: xs))

/-- The polygon-capable names of the export schema. -/
def polygonNames : List String := ["landuse", "leisure", "natural", "amenity"]

/-- The polygon arguments of the `build_geometry` calls in a log. -/
def buildFlags : List GeomCall → List Nat
  | [] => []
  | .build_geometry polygon :: rest => polygon :: buildFlags rest
  | _ :: rest => buildFlags rest

/-! ## Sample states -/

/-- The state after `<node id="1" lon="10" lat="20">` and `<tag k="name" v="Foo">`. -/
def pointWithTag : State (sampleEnv []) :=
  { initState (sampleEnv []) ([], []) false with
    nodes := setSlot (fun _ => ⟨0, ⟨false, 0, 0⟩, ⟨false, 0, 0⟩⟩) 1 ⟨1, Dbl.ofNat 10, Dbl.ofNat 20⟩
    count_all_node := 1
    keys := [⟨"id", "1"⟩]
    tags := [⟨"name", "Foo"⟩] }

/-- A shape about to end: id `5`, one child reference to segment `1`, one tag. -/
def shapeWithTag (texts : List String) (suppress_dupes : Bool) (key value : String) :
    State (sampleEnv texts) :=
  { initState (sampleEnv texts) ([], []) suppress_dupes with
    nodes := setSlot (setSlot (fun _ => ⟨0, ⟨false, 0, 0⟩, ⟨false, 0, 0⟩⟩) 1
      ⟨1, Dbl.ofNat 0, Dbl.ofNat 0⟩) 2 ⟨2, Dbl.ofNat 1, Dbl.ofNat 1⟩
    segments := setSlot (fun _ => ⟨0, 0, 0⟩) 1 ⟨1, 1, 2⟩
    keys := [⟨"id", "5"⟩]
    tags := [⟨key, value⟩]
    segs := [⟨"id", "1"⟩] }

/-! ## Reachable states -/

/-- The states a run passes through: the initial one, and the one after each event that
returns. -/
inductive Reachable (env : Env) (g : env.Geom) (suppress_dupes : Bool) : State env → Prop
  | init : Reachable env g suppress_dupes (initState env g suppress_dupes)
  | step (s s2 : State env) (e : Event) :
    Reachable env g suppress_dupes s → processNode env s e = .ok s2 →
      Reachable env g suppress_dupes s2

/-- Every member of `segment_unique` points to a populated slot of `segments`. -/
def SegmentTableOk {env : Env} (s : State env) : Prop :=
  ∀ m ∈ s.segment_unique, (s.segments m).id ≠ 0

/-- The state after `<node id="1" lon="10" lat="20">`, duplicate suppression enabled. -/
def onePoint : State (sampleEnv []) :=
  (processNode (sampleEnv []) (initState (sampleEnv []) ([], []) true)
    (.start (nodeReader "1" "10" "20") "node")).state

/-- The state after a further `<node id="2" lon="30" lat="40">`. -/
def twoPoints : State (sampleEnv []) :=
  (processNode (sampleEnv []) onePoint (.start (nodeReader "2" "30" "40") "node")).state

/-! ## Sequences of point starts -/

/-- A `<node>` element as it is read: the texts of its `id`, `lon` and `lat`. -/
structure PointRec where
  xid : String
  xlon : String
  xlat : String
deriving DecidableEq, Repr

/-- The identifier the program parses. -/
def PointRec.id (p : PointRec) : Nat := strtoulUInt p.xid

def PointRec.lon (env : Env) (p : PointRec) : Dbl := env.strtod p.xlon

def PointRec.lat (env : Env) (p : PointRec) : Dbl := env.strtod p.xlat

/-- Neither coordinate is a NaN. -/
@[reducible]
def PointRec.isNumber (env : Env) (p : PointRec) : Prop :=
  (p.lon env).isNaN = false ∧ (p.lat env).isNaN = false

/-- The point-start events of a sequence of points. -/
def pointEvents (pts : List PointRec) : List Event :=
  pts.map (fun p => Event.start (nodeReader p.xid p.xlon p.xlat) "node")

/-- Two points have equal longitudes and equal latitudes (the C `==` on doubles). -/
def sameCoords (env : Env) (p q : PointRec) : Bool :=
  (p.lon env).eq (q.lon env) && (p.lat env).eq (q.lat env)

/-- The keys of the two coordinates of a point. -/
def coordKey (env : Env) (p : PointRec) : Int × Int := ((p.lon env).key, (p.lat env).key)

/-- The first point of `l` with the coordinate keys `k`. -/
def firstWithKey (env : Env) (l : List PointRec) (k : Int × Int) : Option PointRec :=
  l.find? (fun q => decide (coordKey env q = k))

/-- What holds of the point store and `node_positions` after the point starts of `done`,
when these have pairwise different identifiers and no NaN: each slot holds the identifier of
the first point with its coordinates, and the table holds exactly those first points. -/
structure PointInv (env : Env) (done : List PointRec) (s : State env) : Prop where
  enabled : s.suppress_dupes = true
  slot : ∀ q ∈ done, ∃ r, firstWithKey env done (coordKey env q) = some r ∧
    s.nodes q.id = ⟨r.id, q.lon env, q.lat env⟩
  member : ∀ m ∈ s.node_positions, ∃ q ∈ done, q.id = m ∧
    firstWithKey env done (coordKey env q) = some q
  first : ∀ q ∈ done, ∀ r, firstWithKey env done (coordKey env q) = some r →
    r.id ∈ s.node_positions

/-- The same identifier twice, then the first coordinates again under a new identifier. -/
def redefinedPoint : List PointRec := [⟨"1", "10", "20"⟩, ⟨"1", "30", "40"⟩, ⟨"2", "10", "20"⟩]

/-- A point with a NaN longitude, then the same coordinates twice. -/
def nanThenTwins : List PointRec := [⟨"1", "nan", "5"⟩, ⟨"2", "7", "5"⟩, ⟨"3", "7", "5"⟩]

/-- Point `1`, then point `2` at the same coordinates. -/
def twins : List PointRec := [⟨"1", "10", "20"⟩, ⟨"2", "10", "20"⟩]

/-! ## Filling and draining a `keyval` list -/

/-- The entries of `es` added one after the other with `addItem`, without duplicate
suppression. -/
def addItems (head : List keyval) (es : List keyval) : List keyval :=
  es.foldl (fun h e => (addItem h e.key e.value false).2) head

/-- The entries that repeated `popItem` hands out, in that order, until it returns `NULL`. -/
def popAll (head : List keyval) : List keyval :=
  match h : popItem head with
  | (none, _) => []
  | (some p, rest) => p :: popAll rest
termination_by head.length
decreasing_by
  cases head with
  | nil => simp [popItem] at h
  | cons x xs =>
    simp only [popItem, Prod.mk.injEq, Option.some.injEq] at h
    rw [← h.2]
    simp

/-- The replacement the two loops of the tag leaf make on one character. -/
def normalizeChar (c : Char) : Char := if c = ':' ∨ c = ' ' then '_' else c

/-- The attributes of `<seg id=..>` and of `<way id=..>`. -/
def idReader (xid : String) : Reader := [("id", xid)]

/-- The attributes of `<tag k=.. v=..>`. -/
def tagReader (xk xv : String) : Reader := [("k", xk), ("v", xv)]

/-- The events of `<node 1/><node 2/><segment 1 from=1 to=2/><node 3><seg 1/><node 4/></node>`:
the inner point end empties the id/key list, so the outer one finds no id. -/
def nestedPoints : List Event := [
  .start (nodeReader "1" "10" "20") "node", .stop "node",
  .start (nodeReader "2" "30" "40") "node", .stop "node",
  .start (segmentReader "1" "1" "2") "segment", .stop "segment",
  .start (nodeReader "3" "50" "60") "node",
  .start (idReader "1") "seg", .stop "seg",
  .start (nodeReader "4" "70" "80") "node", .stop "node"]

/-- The events of `<way id="5"><seg id="99"/></way>` and of `<way id="5"></way>`. -/
def shapeWithDanglingRef : List Event :=
  [.start (idReader "5") "way", .start (idReader "99") "seg", .stop "seg", .stop "way"]

def shapeWithoutRef : List Event := [.start (idReader "5") "way", .stop "way"]

/-- The ten counters of a state. -/
def counters {env : Env} (s : State env) : List Nat :=
  [s.count_node, s.count_all_node, s.count_dupe_node, s.count_segment, s.count_all_segment,
    s.count_dupe_segment, s.count_way, s.count_all_way, s.count_dupe_way, s.count_way_seg]

/-! ## The invariant of the stores -/

/-- What holds in every reachable state. An `id` field stays below the bound; the slot that
a populated slot names as its canonical one is populated; the members of the two tables are
populated; a populated edge slot has two different endpoints, both populated point slots;
every child reference is the `%d` text of a populated edge slot; no reference is held
twice. -/
structure StoreInv {env : Env} (s : State env) : Prop where
  nodeIdLt : ∀ j, (s.nodes j).id < MAX_ID_NODE
  nodeCanon : ∀ j, (s.nodes j).id ≠ 0 → (s.nodes (s.nodes j).id).id ≠ 0
  nodeTable : ∀ m ∈ s.node_positions, (s.nodes m).id ≠ 0
  segIdLt : ∀ i, (s.segments i).id < MAX_ID_SEGMENT
  segCanon : ∀ i, (s.segments i).id ≠ 0 → (s.segments (s.segments i).id).id ≠ 0
  segTable : ∀ m ∈ s.segment_unique, (s.segments m).id ≠ 0
  segEnds : ∀ i, (s.segments i).id ≠ 0 →
    (s.segments i).from_ ≠ (s.segments i).to_ ∧
    (s.segments i).from_ < MAX_ID_NODE ∧ (s.nodes (s.segments i).from_).id ≠ 0 ∧
    (s.segments i).to_ < MAX_ID_NODE ∧ (s.nodes (s.segments i).to_).id ≠ 0
  segsRef : ∀ kv ∈ s.segs, kv.key = "id" ∧
    ∃ c, kv.value = fmt_d c ∧ c < MAX_ID_SEGMENT ∧ (s.segments c).id ≠ 0
  segsNodup : (s.segs.map keyval.value).Nodup

/-- The `add_segment` call that `WKT` makes for one child reference. -/
def segmentCall (nodes : Nat → osmNode) (segments : Nat → osmSegment) (kv : keyval) : GeomCall :=
  .add_segment (nodes (segments (strtoulUInt kv.value)).from_).lon
    (nodes (segments (strtoulUInt kv.value)).from_).lat
    (nodes (segments (strtoulUInt kv.value)).to_).lon
    (nodes (segments (strtoulUInt kv.value)).to_).lat

/-- The identifiers that the child references of a state are read back as. -/
def segIds {env : Env} (s : State env) : List Nat := s.segs.map (fun kv => strtoulUInt kv.value)

/-- The state after the points `1` and `2` and `<segment id="1" from="1" to="2">`. -/
def edgeStored : State (sampleEnv []) :=
  (processNode (sampleEnv []) twoPoints (.start (segmentReader "1" "1" "2") "segment")).state

/-- The state after a further `<way id="5">`. -/
def shapeOpen : State (sampleEnv []) :=
  (processNode (sampleEnv []) edgeStored (.start (idReader "5") "way")).state

/-- The state after a further `<seg id="1">`. -/
def refCaptured : State (sampleEnv []) :=
  (processNode (sampleEnv []) shapeOpen (.start (idReader "1") "seg")).state

/-- Twenty produced geometries, each the text `LINESTRING(0 0,1 1)` of 19 characters. -/
def twentyLines : List String := List.replicate 20 "LINESTRING(0 0,1 1)"

/-- Twenty texts of 23 characters, then, at index `20`, one of 19 characters. -/
def twentyOneLines : List String :=
  List.replicate 20 "LINESTRING(10 10,11 11)" ++ ["LINESTRING(0 0,1 1)"]

/-! # Theorems -/

/-! ## Lemmas on strings and lists -/

theorem strcmpChars_eq_zero : ∀ (a b : List Char), strcmpChars a b = 0 ↔ a = b := by
  intro a
  induction a with
  | nil => intro b; cases b <;> simp [strcmpChars]
  | cons x xs ih =>
    intro b
    cases b with
    | nil => simp [strcmpChars]
    | cons y ys =>
      unfold strcmpChars
      by_cases hxy : x = y
      · simp [hxy, ih]
      · simp only [hxy, if_false, List.cons.injEq, false_and, iff_false]
        split <;> simp

theorem strcmp_eq_zero (a b : String) : strcmp a b = 0 ↔ a = b := by
  unfold strcmp
  rw [strcmpChars_eq_zero]
  cases a; cases b
  exact ⟨fun h => congrArg String.mk h, fun h => congrArg String.data h⟩

theorem getItem_eq_none (tags : List keyval) (name : String) :
    getItem tags name = none ↔ ∀ kv ∈ tags, kv.key ≠ name := by
  induction tags with
  | nil => simp [getItem]
  | cons p rest ih =>
    unfold getItem
    by_cases h : p.key = name
    · subst h
      simp [(strcmp_eq_zero p.key p.key).2 rfl]
    · have h2 : ¬ strcmp p.key name = 0 := fun e => h ((strcmp_eq_zero _ _).1 e)
      simp [h2, ih, h]

theorem getItem_eq_some (tags : List keyval) (name v : String) (h : getItem tags name = some v) :
    ∃ kv ∈ tags, kv.key = name ∧ kv.value = v := by
  induction tags with
  | nil => simp [getItem] at h
  | cons p rest ih =>
    unfold getItem at h
    by_cases hk : strcmp p.key name = 0
    · simp only [hk, if_true, Option.some.injEq] at h
      exact ⟨p, List.mem_cons_self _ _, (strcmp_eq_zero _ _).1 hk, h⟩
    · simp only [hk, if_false] at h
      obtain ⟨kv, hm, hkv⟩ := ih h
      exact ⟨kv, List.mem_cons_of_mem _ hm, hkv⟩

theorem getItem_isSome (tags : List keyval) (name : String) :
    (getItem tags name).isSome = occursAsKey tags name := by
  unfold occursAsKey
  cases h : getItem tags name with
  | none =>
    rw [getItem_eq_none] at h
    symm
    simp only [Option.isSome_none, List.any_eq_false, beq_iff_eq]
    exact h
  | some v =>
    obtain ⟨kv, hm, hk, _⟩ := getItem_eq_some tags name v h
    symm
    simp only [Option.isSome_some, List.any_eq_true, beq_iff_eq]
    exact ⟨kv, hm, hk⟩

theorem resetList_eq_nil (l : List keyval) : resetList l = [] := by
  induction l with
  | nil => rfl
  | cons _ _ ih => simpa [resetList] using ih

/-! ## The loop over the export schema -/

theorem quote_name_step (n : String) (t : tagDesc) :
    n ++ ",\"" ++ t.name ++ "\"" = n ++ "," ++ quoteName t := by
  have h : (",\"" : String) = "," ++ "\"" := by decide
  unfold quoteName
  rw [h]
  simp only [String.append_assoc]

theorem quote_value_step (o v : String) : o ++ ",$$" ++ v ++ "$$" = o ++ "," ++ quoteValue v := by
  have h : (",$$" : String) = "," ++ "$$" := by decide
  unfold quoteValue
  rw [h]
  simp only [String.append_assoc]

theorem exportLoop_some (tags : List keyval) :
    ∀ (ts : List tagDesc) (n v : String) (p : Nat),
      exportLoop tags ts (some n, some v, p) =
        (some (String.intercalate.go n ","
            ((ts.filter (fun t => occursAsKey tags t.name)).map quoteName)),
         some (String.intercalate.go v ","
            ((ts.filter (fun t => occursAsKey tags t.name)).map (columnValue tags))),
         (ts.filter (fun t => occursAsKey tags t.name)).foldl (fun a t => a ||| t.polygon) p) := by
  intro ts
  induction ts with
  | nil => intro n v p; simp [exportLoop, String.intercalate.go]
  | cons t rest ih =>
    intro n v p
    have hk := getItem_isSome tags t.name
    unfold exportLoop
    cases hg : getItem tags t.name with
    | none =>
      rw [hg] at hk
      have hk2 : occursAsKey tags t.name = false := by simpa using hk.symm
      simp only [List.filter_cons, hk2]
      exact ih n v p
    | some w =>
      rw [hg] at hk
      have hk2 : occursAsKey tags t.name = true := by simpa using hk.symm
      simp only [List.filter_cons, hk2, if_true, List.map_cons, List.foldl_cons,
        String.intercalate.go, Option.getD_some]
      rw [ih, quote_name_step, quote_value_step]
      simp [columnValue, hg]

theorem exportLoop_none (tags : List keyval) :
    ∀ (ts : List tagDesc) (p : Nat),
      exportLoop tags ts (none, none, p) =
        (commaText ((ts.filter (fun t => occursAsKey tags t.name)).map quoteName),
         commaText ((ts.filter (fun t => occursAsKey tags t.name)).map (columnValue tags)),
         (ts.filter (fun t => occursAsKey tags t.name)).foldl (fun a t => a ||| t.polygon) p) := by
  intro ts
  induction ts with
  | nil => intro p; simp [exportLoop, commaText]
  | cons t rest ih =>
    intro p
    have hk := getItem_isSome tags t.name
    unfold exportLoop
    cases hg : getItem tags t.name with
    | none =>
      rw [hg] at hk
      have hk2 : occursAsKey tags t.name = false := by simpa using hk.symm
      simp only [List.filter_cons, hk2]
      exact ih p
    | some w =>
      rw [hg] at hk
      have hk2 : occursAsKey tags t.name = true := by simpa using hk.symm
      simp only [List.filter_cons, hk2, if_true, List.map_cons, List.foldl_cons, commaText,
        String.intercalate]
      rw [exportLoop_some]
      simp [columnValue, hg, quoteName, quoteValue]

/-- What the loop of `EndElement` leaves in `names`, `values` and `polygon`. -/
theorem exportLoop_spec (tags : List keyval) :
    exportLoop tags exportTags (none, none, 0) =
      (commaText ((exportedColumns tags).map quoteName),
       commaText ((exportedColumns tags).map (columnValue tags)),
       (exportedColumns tags).foldl (fun a t => a ||| t.polygon) 0) :=
  exportLoop_none tags exportTags 0

theorem commaText_eq_none (l : List String) : commaText l = none ↔ l = [] := by
  cases l <;> simp [commaText]

theorem exportedColumns_eq_nil (tags : List keyval) :
    exportedColumns tags = [] ↔ ¬ ∃ t ∈ exportTags, ∃ kv ∈ tags, kv.key = t.name := by
  unfold exportedColumns occursAsKey
  simp [List.filter_eq_nil_iff]

/-! ## Frames of the loops of the branch `way` -/

theorem WKT_loop_frame (env : Env) :
    ∀ (l : List keyval) (s : State env), ∃ segs g c,
      (WKT_loop env l s).state = { s with segs := segs, geom := g, calls := s.calls ++ c } ∧
        buildFlags c = [] := by
  intro l
  induction l with
  | nil => intro s; exact ⟨[], s.geom, [], by simp [WKT_loop, Result.state], rfl⟩
  | cons p rest ih =>
    intro s
    unfold WKT_loop
    simp only
    split
    · exact ⟨rest, s.geom, [], by simp [Result.state], rfl⟩
    · split
      · exact ⟨rest, s.geom, [], by simp [Result.state], rfl⟩
      · split
        · exact ⟨rest, s.geom, [], by simp [Result.state], rfl⟩
        · obtain ⟨segs, g, c, h, hc⟩ := ih
            { s with
              segs := rest
              geom := env.add_segment s.geom (s.nodes (s.segments (strtoulUInt p.value)).from_).lon
                (s.nodes (s.segments (strtoulUInt p.value)).from_).lat
                (s.nodes (s.segments (strtoulUInt p.value)).to_).lon
                (s.nodes (s.segments (strtoulUInt p.value)).to_).lat
              calls := s.calls ++ [.add_segment (s.nodes (s.segments (strtoulUInt p.value)).from_).lon
                (s.nodes (s.segments (strtoulUInt p.value)).from_).lat
                (s.nodes (s.segments (strtoulUInt p.value)).to_).lon
                (s.nodes (s.segments (strtoulUInt p.value)).to_).lat] }
          refine ⟨segs, g, GeomCall.add_segment (s.nodes (s.segments (strtoulUInt p.value)).from_).lon
                (s.nodes (s.segments (strtoulUInt p.value)).from_).lat
                (s.nodes (s.segments (strtoulUInt p.value)).to_).lon
                (s.nodes (s.segments (strtoulUInt p.value)).to_).lat :: c, ?_, ?_⟩
          · rw [h]; simp
          · simpa [buildFlags] using hc

theorem wayLoop_frame (env : Env) (id : Nat) (names osm_id values : String) :
    ∀ (n i : Nat) (s : State env), ∃ wt rows cw cd c,
      (wayLoop env id names osm_id values n i s).state =
        { s with way_tree := wt, out := s.out ++ rows, count_way := cw, count_dupe_way := cd,
                 calls := s.calls ++ c } ∧
        buildFlags c = [] ∧
        ∀ r ∈ rows, r.names = names ∧ r.osm_id = osm_id ∧ r.values = values := by
  intro n
  induction n with
  | zero =>
    intro i s
    exact ⟨s.way_tree, [], s.count_way, s.count_dupe_way, [], by simp [wayLoop, Result.state],
      rfl, by simp⟩
  | succ n ih =>
    intro i s
    unfold wayLoop
    simp only
    split
    · split
      · split
        · exact ⟨s.way_tree, [], s.count_way, s.count_dupe_way, [.get_wkt i],
            by simp [Result.state], rfl, by simp⟩
        · split
          · obtain ⟨wt, rows, cw, cd, c, h, hc, hr⟩ := ih (i + 1)
              { s with
                calls := s.calls ++ [.get_wkt i]
                way_tree := (insert_or_find compare_way s.way_tree
                  ⟨id, values, env.get_wkt s.geom i⟩).2
                count_dupe_way := s.count_dupe_way + 1 }
            refine ⟨wt, rows, cw, cd, .get_wkt i :: c, ?_, ?_, hr⟩
            · rw [h]; simp
            · simpa [buildFlags] using hc
          · obtain ⟨wt, rows, cw, cd, c, h, hc, hr⟩ := ih (i + 1)
              { s with
                calls := s.calls ++ [.get_wkt i]
                way_tree := (insert_or_find compare_way s.way_tree
                  ⟨id, values, env.get_wkt s.geom i⟩).2
                out := s.out ++ [⟨names, osm_id, values, env.get_wkt s.geom i⟩]
                count_way := s.count_way + 1 }
            refine ⟨wt, ⟨names, osm_id, values, env.get_wkt s.geom i⟩ :: rows, cw, cd,
              .get_wkt i :: c, ?_, ?_, ?_⟩
            · rw [h]; simp
            · simpa [buildFlags] using hc
            · intro r hrm
              rcases List.mem_cons.1 hrm with h1 | h1
              · subst h1; exact ⟨rfl, rfl, rfl⟩
              · exact hr r h1
      · obtain ⟨wt, rows, cw, cd, c, h, hc, hr⟩ := ih (i + 1)
          { s with
            calls := s.calls ++ [.get_wkt i]
            out := s.out ++ [⟨names, osm_id, values, env.get_wkt s.geom i⟩]
            count_way := s.count_way + 1 }
        refine ⟨wt, ⟨names, osm_id, values, env.get_wkt s.geom i⟩ :: rows, cw, cd,
          .get_wkt i :: c, ?_, ?_, ?_⟩
        · rw [h]; simp
        · simpa [buildFlags] using hc
        · intro r hrm
          rcases List.mem_cons.1 hrm with h1 | h1
          · subst h1; exact ⟨rfl, rfl, rfl⟩
          · exact hr r h1
    · obtain ⟨wt, rows, cw, cd, c, h, hc, hr⟩ := ih (i + 1)
        { s with calls := s.calls ++ [.get_wkt i] }
      refine ⟨wt, rows, cw, cd, .get_wkt i :: c, ?_, ?_, hr⟩
      · rw [h]; simp
      · simpa [buildFlags] using hc

theorem commaText_map_eq_none {α : Type} (f : α → String) (l : List α) :
    commaText (l.map f) = none ↔ l = [] := by
  cases l <;> simp [commaText]

theorem mem_exportedColumns (tags : List keyval) (t : tagDesc) (h : t ∈ exportedColumns tags) :
    t ∈ exportTags ∧ ∃ kv ∈ tags, kv.key = t.name ∧ columnValue tags t = quoteValue kv.value := by
  unfold exportedColumns at h
  rw [List.mem_filter] at h
  refine ⟨h.1, ?_⟩
  have h2 := h.2
  rw [← getItem_isSome] at h2
  cases hg : getItem tags t.name with
  | none => rw [hg] at h2; simp at h2
  | some v =>
    obtain ⟨kv, hm, hk, hv⟩ := getItem_eq_some tags t.name v hg
    exact ⟨kv, hm, hk, by simp [columnValue, hg, hv]⟩

/-- The rows that the branch `node` of `EndElement` writes. -/
theorem EndElement_node_out (env : Env) (s : State env) :
    ∃ rows, (EndElement_node env s).state.out = s.out ++ rows ∧
      ∀ r ∈ rows, some r.names = commaText ((exportedColumns s.tags).map quoteName) ∧
        some r.values = commaText ((exportedColumns s.tags).map (columnValue s.tags)) := by
  unfold EndElement_node
  cases getItem s.keys "id" with
  | none => exact ⟨[], by simp [Result.state], by simp⟩
  | some osm_id =>
    simp only
    split
    · exact ⟨[], by simp [Result.state], by simp⟩
    · split
      · exact ⟨[], by simp [Result.state], by simp⟩
      · rw [exportLoop_spec]
        simp only
        cases hv : commaText ((exportedColumns s.tags).map (columnValue s.tags)) with
        | none => exact ⟨[], by simp [Result.state], by simp⟩
        | some values =>
          have hne : exportedColumns s.tags ≠ [] := by
            intro h0
            rw [h0] at hv
            simp [commaText] at hv
          cases hn : commaText ((exportedColumns s.tags).map quoteName) with
          | none => exact absurd ((commaText_map_eq_none _ _).1 hn) hne
          | some names =>
            refine ⟨[⟨names, osm_id, values, pointWkt env (s.nodes (strtoulUInt osm_id)).lon
              (s.nodes (strtoulUInt osm_id)).lat⟩], by simp [Result.state], ?_⟩
            intro r hr
            rw [List.mem_singleton] at hr
            subst hr
            exact ⟨rfl, rfl⟩

/-- The rows that the branch `way` of `EndElement` writes. -/
theorem EndElement_way_out (env : Env) (s : State env) :
    ∃ rows, (EndElement_way env s).state.out = s.out ++ rows ∧
      ∀ r ∈ rows, some r.names = commaText ((exportedColumns s.tags).map quoteName) ∧
        some r.values = commaText ((exportedColumns s.tags).map (columnValue s.tags)) := by
  unfold EndElement_way
  cases getItem s.keys "id" with
  | none => exact ⟨[], by simp [Result.state, resetAll], by simp⟩
  | some osm_id =>
    simp only
    split
    · exact ⟨[], by simp [Result.state, resetAll], by simp⟩
    · rw [exportLoop_spec]
      simp only
      cases hv : commaText ((exportedColumns s.tags).map (columnValue s.tags)) with
      | none => exact ⟨[], by simp [Result.state, resetAll], by simp⟩
      | some values =>
        have hne : exportedColumns s.tags ≠ [] := by
          intro h0
          rw [h0] at hv
          simp [commaText] at hv
        cases hn : commaText ((exportedColumns s.tags).map quoteName) with
        | none => exact absurd ((commaText_map_eq_none _ _).1 hn) hne
        | some names =>
          simp only [Option.getD_some]
          obtain ⟨segs, g, c, hW, _⟩ := WKT_loop_frame env s.segs s
          unfold WKT
          cases hL : WKT_loop env s.segs s with
          | fault f s1 =>
            rw [hL] at hW
            simp only [Result.state] at hW
            exact ⟨[], by simp [Result.state, hW], by simp⟩
          | ok s1 =>
            rw [hL] at hW
            simp only [Result.state] at hW
            simp only
            split
            · rename_i hsz
              obtain ⟨wt, rows, cw, cd, c2, hY, _, hrows⟩ :=
                wayLoop_frame env (strtoulUInt osm_id) names osm_id values
                  (env.build_geometry s1.geom
                    ((exportedColumns s.tags).foldl (fun a t => a ||| t.polygon) 0)).2 0
                  { s1 with
                    geom := (env.build_geometry s1.geom
                      ((exportedColumns s.tags).foldl (fun a t => a ||| t.polygon) 0)).1
                    calls := s1.calls ++ [.build_geometry
                      ((exportedColumns s.tags).foldl (fun a t => a ||| t.polygon) 0)] }
              refine ⟨rows, ?_, ?_⟩
              · cases hR : wayLoop env (strtoulUInt osm_id) names osm_id values
                    (env.build_geometry s1.geom
                      ((exportedColumns s.tags).foldl (fun a t => a ||| t.polygon) 0)).2 0
                    { s1 with
                      geom := (env.build_geometry s1.geom
                        ((exportedColumns s.tags).foldl (fun a t => a ||| t.polygon) 0)).1
                      calls := s1.calls ++ [.build_geometry
                        ((exportedColumns s.tags).foldl (fun a t => a ||| t.polygon) 0)] } with
                | fault f s2 =>
                  rw [hR] at hY
                  simp only [Result.state] at hY
                  simp [Result.state, hY, hW]
                | ok s2 =>
                  rw [hR] at hY
                  simp only [Result.state] at hY
                  simp [Result.state, resetAll, hY, hW]
              · intro r hr
                obtain ⟨h1, _, h3⟩ := hrows r hr
                exact ⟨by rw [h1], by rw [h3]⟩
            · exact ⟨[], by simp [Result.state, resetAll, hW], by simp⟩

/-! ## Point end -/

/-- C1: when point end runs with a captured id that names a populated point slot, it
returns, and it writes exactly one row, carrying the captured id and the point geometry of
the longitude and latitude stored in that slot, if some export-schema name is a key of the
tag list; it writes no row if none is. -/
theorem point_end_one_row_iff_exportable (env : Env) (s : State env) (osm_id : String)
    (hid : getItem s.keys "id" = some osm_id)
    (hrange : strtoulUInt osm_id ≤ MAX_ID_NODE)
    (hpop : (s.nodes (strtoulUInt osm_id)).id ≠ 0) :
    ∃ s2, EndElement env s "node" = .ok s2 ∧
      ((∃ t ∈ exportTags, ∃ kv ∈ s.tags, kv.key = t.name) →
        ∃ names values, s2.out = s.out ++
          [⟨names, osm_id, values, pointWkt env (s.nodes (strtoulUInt osm_id)).lon
            (s.nodes (strtoulUInt osm_id)).lat⟩]) ∧
      ((¬ ∃ t ∈ exportTags, ∃ kv ∈ s.tags, kv.key = t.name) → s2.out = s.out) := by
  have hr : ¬ strtoulUInt osm_id > MAX_ID_NODE := Nat.not_lt.2 hrange
  simp only [EndElement, if_true]
  unfold EndElement_node
  rw [hid]
  simp only [hr, hpop, if_false]
  rw [exportLoop_spec]
  simp only
  cases hv : commaText ((exportedColumns s.tags).map (columnValue s.tags)) with
  | none =>
    have h0 := (commaText_map_eq_none _ _).1 hv
    refine ⟨_, rfl, ?_, fun _ => rfl⟩
    intro hex
    exact absurd hex ((exportedColumns_eq_nil s.tags).1 h0)
  | some values =>
    refine ⟨_, rfl, fun _ => ⟨_, values, rfl⟩, ?_⟩
    intro hno
    have h0 := (exportedColumns_eq_nil s.tags).2 hno
    rw [h0] at hv
    simp [commaText] at hv

/-- C1 at the point `id=1 lon=10 lat=20` tagged `name=Foo`. -/
theorem point_end_one_row_iff_exportable_witness :
    ∃ s2, EndElement (sampleEnv []) pointWithTag "node" = .ok s2 ∧
      ((∃ t ∈ exportTags, ∃ kv ∈ pointWithTag.tags, kv.key = t.name) →
        ∃ names values, s2.out = pointWithTag.out ++
          [⟨names, "1", values, pointWkt (sampleEnv []) (pointWithTag.nodes (strtoulUInt "1")).lon
            (pointWithTag.nodes (strtoulUInt "1")).lat⟩]) ∧
      ((¬ ∃ t ∈ exportTags, ∃ kv ∈ pointWithTag.tags, kv.key = t.name) →
        s2.out = pointWithTag.out) :=
  point_end_one_row_iff_exportable (sampleEnv []) pointWithTag "1" (by decide) (by decide)
    (by decide)

/-- C2: the loop over the export schema, which point end and shape end both run on the
record's tag list, leaves in `names` the schema's names, in schema order, filtered to those
that are a key of the tag list, and in `values` one value per such column, the value of a
tag of the record with that key (`NULL` for both when no name is present); every row that
point end or shape end writes carries exactly these two texts. -/
theorem tuple_is_schema_ordered_subset (env : Env) (s : State env) :
    (exportLoop s.tags exportTags (none, none, 0)).1 =
        commaText ((exportTags.filter (fun t => occursAsKey s.tags t.name)).map quoteName) ∧
      (exportLoop s.tags exportTags (none, none, 0)).2.1 =
        commaText ((exportTags.filter (fun t => occursAsKey s.tags t.name)).map
          (columnValue s.tags)) ∧
      (∀ t ∈ exportTags.filter (fun t => occursAsKey s.tags t.name),
        ∃ kv ∈ s.tags, kv.key = t.name ∧ columnValue s.tags t = quoteValue kv.value) ∧
      (∃ rows, (EndElement env s "node").state.out = s.out ++ rows ∧
        ∀ r ∈ rows,
          some r.names =
              commaText ((exportTags.filter (fun t => occursAsKey s.tags t.name)).map quoteName) ∧
            some r.values =
              commaText ((exportTags.filter (fun t => occursAsKey s.tags t.name)).map
                (columnValue s.tags))) ∧
      (∃ rows, (EndElement env s "way").state.out = s.out ++ rows ∧
        ∀ r ∈ rows,
          some r.names =
              commaText ((exportTags.filter (fun t => occursAsKey s.tags t.name)).map quoteName) ∧
            some r.values =
              commaText ((exportTags.filter (fun t => occursAsKey s.tags t.name)).map
                (columnValue s.tags))) := by
  refine ⟨?_, ?_, ?_, ?_, ?_⟩
  · rw [exportLoop_spec]; rfl
  · rw [exportLoop_spec]; rfl
  · intro t ht
    exact (mem_exportedColumns s.tags t ht).2
  · have h : EndElement env s "node" = EndElement_node env s := by simp [EndElement]
    rw [h]
    exact EndElement_node_out env s
  · have h : EndElement env s "way" = EndElement_way env s := by
      have h1 : ¬ ("way" = "node") := by decide
      have h2 : ¬ ("way" = "segment") := by decide
      have h3 : ¬ ("way" = "tag") := by decide
      simp [EndElement, h1, h2, h3]
    rw [h]
    exact EndElement_way_out env s

/-! ## Shape end -/

theorem EndElement_way_eq (env : Env) (s : State env) :
    EndElement env s "way" = EndElement_way env s := by
  have h1 : ¬ ("way" = "node") := by decide
  have h2 : ¬ ("way" = "segment") := by decide
  have h3 : ¬ ("way" = "tag") := by decide
  simp [EndElement, h1, h2, h3]

/-- C6: when shape end runs with an empty child-reference list, it returns without writing
a row and without any call to the geometry builder, whatever the tag list and the id/key
list hold. -/
theorem shape_end_without_refs_is_silent (env : Env) (s : State env) (h : s.segs = []) :
    ∃ s2, EndElement env s "way" = .ok s2 ∧ s2.out = s.out ∧ s2.calls = s.calls ∧
      s2.geom = s.geom := by
  rw [EndElement_way_eq]
  unfold EndElement_way
  cases getItem s.keys "id" with
  | none => exact ⟨_, rfl, rfl, rfl, rfl⟩
  | some osm_id =>
    simp only [h, listHasData, List.isEmpty_nil]
    exact ⟨_, rfl, rfl, rfl, rfl⟩

/-- C6 at a shape with an id and the tag `name=Foo` but no child reference. -/
theorem shape_end_without_refs_is_silent_witness :
    ∃ s2, EndElement (sampleEnv ["LINESTRING(0 0,1 1)"]) 
        { initState (sampleEnv ["LINESTRING(0 0,1 1)"]) ([], []) false with
          keys := [⟨"id", "5"⟩], tags := [⟨"name", "Foo"⟩] } "way" = .ok s2 ∧
      s2.out = [] ∧ s2.calls = [] ∧ s2.geom = ([], []) :=
  shape_end_without_refs_is_silent (sampleEnv ["LINESTRING(0 0,1 1)"])
    { initState (sampleEnv ["LINESTRING(0 0,1 1)"]) ([], []) false with
      keys := [⟨"id", "5"⟩], tags := [⟨"name", "Foo"⟩] } rfl

theorem buildFlags_append (a b : List GeomCall) :
    buildFlags (a ++ b) = buildFlags a ++ buildFlags b := by
  induction a with
  | nil => rfl
  | cons x xs ih => cases x <;> simp [buildFlags, ih]

/-- With every reference in range, the loop of `WKT` runs to its end. -/
theorem WKT_loop_ok (env : Env) :
    ∀ (l : List keyval) (s : State env),
      (∀ p ∈ l, strtoulUInt p.value ≤ MAX_ID_SEGMENT ∧
        (s.segments (strtoulUInt p.value)).from_ ≤ MAX_ID_NODE ∧
        (s.segments (strtoulUInt p.value)).to_ ≤ MAX_ID_NODE) →
      ∃ s1, WKT_loop env l s = .ok s1 := by
  intro l
  induction l with
  | nil => intro s _; exact ⟨_, rfl⟩
  | cons p rest ih =>
    intro s hs
    obtain ⟨h1, h2, h3⟩ := hs p (List.mem_cons_self _ _)
    unfold WKT_loop
    simp only [Nat.not_lt.2 h1, Nat.not_lt.2 h2, Nat.not_lt.2 h3, gt_iff_lt, if_false]
    exact ih _ (fun q hq => hs q (List.mem_cons_of_mem _ hq))

theorem lor_le_one (a b : Nat) (ha : a ≤ 1) (hb : b ≤ 1) :
    a ||| b = if a = 1 ∨ b = 1 then 1 else 0 := by
  interval_cases a <;> interval_cases b <;> rfl

theorem polygon_fold (l : List tagDesc) (hl : ∀ t ∈ l, t.polygon ≤ 1) :
    ∀ a : Nat, a ≤ 1 →
      l.foldl (fun a t => a ||| t.polygon) a = if a = 1 ∨ ∃ t ∈ l, t.polygon = 1 then 1 else 0 := by
  induction l with
  | nil =>
    intro a ha
    interval_cases a <;> simp
  | cons t rest ih =>
    intro a ha
    have ht : t.polygon ≤ 1 := hl t (List.mem_cons_self _ _)
    have hstep := lor_le_one a t.polygon ha ht
    have hle : a ||| t.polygon ≤ 1 := by rw [hstep]; split <;> omega
    rw [List.foldl_cons, ih (fun u hu => hl u (List.mem_cons_of_mem _ hu)) _ hle, hstep]
    by_cases h1 : a = 1
    · simp [h1]
    · by_cases h2 : t.polygon = 1
      · simp [h2]
      · simp [h1, h2]

/-- The value of `polygon` after the loop over the export schema. -/
theorem polygon_of_tags (tags : List keyval) :
    (exportedColumns tags).foldl (fun a t => a ||| t.polygon) 0 =
      if ∃ kv ∈ tags, kv.key ∈ polygonNames then 1 else 0 := by
  have hall : ∀ t ∈ exportTags, t.polygon ≤ 1 := by decide
  have hnames : ∀ t ∈ exportTags, t.polygon = 1 → t.name ∈ polygonNames := by decide
  have hback : ∀ n ∈ polygonNames, (⟨n, "text", 1⟩ : tagDesc) ∈ exportTags := by decide
  have hsub : ∀ t ∈ exportedColumns tags, t.polygon ≤ 1 := by
    intro t ht
    exact hall t (List.mem_filter.1 ht).1
  rw [polygon_fold _ hsub 0 (by omega)]
  have hiff : (∃ t ∈ exportedColumns tags, t.polygon = 1) ↔ ∃ kv ∈ tags, kv.key ∈ polygonNames := by
    constructor
    · rintro ⟨t, ht, hp⟩
      obtain ⟨hmem, kv, hkv, hk, _⟩ := mem_exportedColumns tags t ht
      exact ⟨kv, hkv, by rw [hk]; exact hnames t hmem hp⟩
    · rintro ⟨kv, hkv, hk⟩
      refine ⟨⟨kv.key, "text", 1⟩, ?_, rfl⟩
      unfold exportedColumns
      rw [List.mem_filter]
      refine ⟨hback _ hk, ?_⟩
      simp only [occursAsKey, List.any_eq_true, beq_iff_eq]
      exact ⟨kv, hkv, rfl⟩
  simp [hiff]

/-- C8: at shape end, with an id captured, some child reference captured and every
reference in range, a tag list that yields a non-empty attribute tuple makes the branch
call `build_geometry` exactly once, and the polygon flag it passes is `1` if some tag has
one of the polygon-capable names `landuse`, `leisure`, `natural`, `amenity` as key, and `0`
if none has. -/
theorem polygon_flag_iff_polygon_tag (env : Env) (s : State env) (osm_id : String)
    (hid : getItem s.keys "id" = some osm_id)
    (hsegs : s.segs ≠ [])
    (hsafe : ∀ p ∈ s.segs, strtoulUInt p.value ≤ MAX_ID_SEGMENT ∧
      (s.segments (strtoulUInt p.value)).from_ ≤ MAX_ID_NODE ∧
      (s.segments (strtoulUInt p.value)).to_ ≤ MAX_ID_NODE)
    (htuple : ∃ t ∈ exportTags, ∃ kv ∈ s.tags, kv.key = t.name) :
    buildFlags (EndElement env s "way").state.calls =
      buildFlags s.calls ++ [if ∃ kv ∈ s.tags, kv.key ∈ polygonNames then 1 else 0] := by
  rw [EndElement_way_eq]
  unfold EndElement_way
  rw [hid]
  have hdata : listHasData s.segs = true := by
    cases hs : s.segs with
    | nil => exact absurd hs hsegs
    | cons _ _ => rfl
  simp only [hdata, not_true_eq_false, if_false]
  rw [exportLoop_spec]
  simp only
  have hne : exportedColumns s.tags ≠ [] := fun h0 => (exportedColumns_eq_nil s.tags).1 h0 htuple
  cases hv : commaText ((exportedColumns s.tags).map (columnValue s.tags)) with
  | none => exact absurd ((commaText_map_eq_none _ _).1 hv) hne
  | some values =>
    simp only
    rw [polygon_of_tags]
    generalize (if ∃ kv ∈ s.tags, kv.key ∈ polygonNames then 1 else 0) = flag
    obtain ⟨s1, hL⟩ := WKT_loop_ok env s.segs s hsafe
    obtain ⟨segs, g, c, hW, hc⟩ := WKT_loop_frame env s.segs s
    rw [hL] at hW
    simp only [Result.state] at hW
    unfold WKT
    rw [hL]
    simp only
    have hs1 : buildFlags s1.calls = buildFlags s.calls := by
      rw [hW]
      simp [buildFlags_append, hc]
    by_cases hsz : (env.build_geometry s1.geom flag).2 = 0
    · simp only [hsz, ne_eq, not_true_eq_false, if_false, Result.state, resetAll]
      simp [buildFlags_append, hs1, buildFlags]
    · simp only [hsz, ne_eq, not_false_eq_true, if_true]
      obtain ⟨wt, rows, cw, cd, c2, hY, hc2, _⟩ :=
        wayLoop_frame env (strtoulUInt osm_id)
          ((commaText ((exportedColumns s.tags).map quoteName)).getD "(null)") osm_id values
          (env.build_geometry s1.geom flag).2 0
          { s1 with
            geom := (env.build_geometry s1.geom flag).1
            calls := s1.calls ++ [.build_geometry flag] }
      cases hR : wayLoop env (strtoulUInt osm_id)
          ((commaText ((exportedColumns s.tags).map quoteName)).getD "(null)") osm_id values
          (env.build_geometry s1.geom flag).2 0
          { s1 with
            geom := (env.build_geometry s1.geom flag).1
            calls := s1.calls ++ [.build_geometry flag] } with
      | fault f s2 =>
        rw [hR] at hY
        simp only [Result.state] at hY
        simp only [Result.state, hY]
        simp [buildFlags_append, hc2, hs1, buildFlags]
      | ok s2 =>
        rw [hR] at hY
        simp only [Result.state] at hY
        simp only [Result.state, resetAll, hY]
        simp [buildFlags_append, hc2, hs1, buildFlags]

/-- C8 at a shape tagged `landuse=forest`: the flag passed is `1`. -/
theorem polygon_flag_iff_polygon_tag_witness :
    buildFlags (EndElement (sampleEnv ["POLYGON((0 0,1 1,0 0))"])
        (shapeWithTag ["POLYGON((0 0,1 1,0 0))"] false "landuse" "forest") "way").state.calls =
      buildFlags (shapeWithTag ["POLYGON((0 0,1 1,0 0))"] false "landuse" "forest").calls ++
        [if ∃ kv ∈ (shapeWithTag ["POLYGON((0 0,1 1,0 0))"] false "landuse" "forest").tags,
            kv.key ∈ polygonNames then 1 else 0] :=
  polygon_flag_iff_polygon_tag (sampleEnv ["POLYGON((0 0,1 1,0 0))"])
    (shapeWithTag ["POLYGON((0 0,1 1,0 0))"] false "landuse" "forest") "5" (by decide) (by decide)
    (by decide) (by decide)

/-! ## Point start -/

theorem StartElement_node_eq (env : Env) (s : State env) (reader : Reader) :
    StartElement env s reader "node" = StartElement_node env s reader := by
  simp [StartElement]

theorem StartElement_segment_eq (env : Env) (s : State env) (reader : Reader) :
    StartElement env s reader "segment" = StartElement_segment env s reader := by
  have h1 : ¬ ("segment" = "node") := by decide
  simp [StartElement, h1]

/-- C10: with duplicate suppression disabled, a point start with a valid identifier `id`
and coordinates `(lon, lat)` returns, the slot `id` of the point store then holds the
identifier `id`, the longitude `lon` and the latitude `lat`, whatever it held before, and
every other slot is as before. -/
theorem point_start_last_write_wins (env : Env) (s : State env) (reader : Reader)
    (xid xlon xlat : String)
    (hoff : s.suppress_dupes = false)
    (hxid : xmlTextReaderGetAttribute reader "id" = some xid)
    (hxlon : xmlTextReaderGetAttribute reader "lon" = some xlon)
    (hxlat : xmlTextReaderGetAttribute reader "lat" = some xlat)
    (hpos : 0 < strtoulUInt xid) (hmax : strtoulUInt xid < MAX_ID_NODE) :
    ∃ s2, StartElement env s reader "node" = .ok s2 ∧
      s2.nodes (strtoulUInt xid) = ⟨strtoulUInt xid, env.strtod xlon, env.strtod xlat⟩ ∧
      ∀ j, j ≠ strtoulUInt xid → s2.nodes j = s.nodes j := by
  rw [StartElement_node_eq]
  unfold StartElement_node
  rw [hxid, hxlon, hxlat]
  simp only [hpos, hmax, hoff, gt_iff_lt, and_self, not_true_eq_false, if_false, Bool.false_eq_true]
  refine ⟨_, rfl, ?_, ?_⟩
  · simp [setSlot]
  · intro j hj
    simp [setSlot, hj]

/-- C10 at a second `<node id="1">` over the populated slot `1`. -/
theorem point_start_last_write_wins_witness :
    ∃ s2, StartElement (sampleEnv []) pointWithTag (nodeReader "1" "30" "40") "node" = .ok s2 ∧
      s2.nodes (strtoulUInt "1") =
        ⟨strtoulUInt "1", (sampleEnv []).strtod "30", (sampleEnv []).strtod "40"⟩ ∧
      ∀ j, j ≠ strtoulUInt "1" → s2.nodes j = pointWithTag.nodes j :=
  point_start_last_write_wins (sampleEnv []) pointWithTag (nodeReader "1" "30" "40") "1" "30" "40"
    rfl rfl rfl rfl (by decide) (by decide)

/-! ## Edge start -/

theorem insert_or_find_some {α : Type} (compare : α → α → Int) (table : List α) (item d : α)
    (h : (insert_or_find compare table item).1 = some d) :
    d ∈ table ∧ compare item d = 0 ∧ (insert_or_find compare table item).2 = table := by
  unfold insert_or_find at h ⊢
  cases hf : table.find? (fun member => compare item member == 0) with
  | none => rw [hf] at h; simp at h
  | some m =>
    rw [hf] at h
    simp only [Option.some.injEq] at h
    subst h
    have h1 := List.mem_of_find?_eq_some hf
    have h2 := List.find?_some hf
    exact ⟨h1, by simpa using h2, rfl⟩

theorem insert_or_find_none {α : Type} (compare : α → α → Int) (table : List α) (item : α)
    (h : (insert_or_find compare table item).1 = none) :
    (∀ m ∈ table, compare item m ≠ 0) ∧ (insert_or_find compare table item).2 = table ++ [item] := by
  unfold insert_or_find at h ⊢
  cases hf : table.find? (fun member => compare item member == 0) with
  | some m => rw [hf] at h; simp at h
  | none =>
    refine ⟨?_, rfl⟩
    intro m hm
    have := List.find?_eq_none.1 hf m hm
    simpa using this

/-- Edge start keeps every member of `segment_unique` populated. -/
theorem StartElement_segment_tableOk (env : Env) (s s2 : State env) (reader : Reader)
    (hok : SegmentTableOk s) (h : StartElement_segment env s reader = .ok s2) :
    SegmentTableOk s2 := by
  unfold StartElement_segment at h
  split at h
  · rename_i xid xfrom xto _ _ _
    simp only at h
    split at h
    · cases h
    · rename_i hvalid
      have hid : strtoulUInt xid ≠ 0 := by
        intro h0
        apply hvalid
        rw [h0]
        simp
      split at h
      · cases h
      · split at h
        · cases h; exact hok
        · split at h
          · cases h
          · split at h
            · cases h; exact hok
            · split at h
              · split at h
                · rename_i hp
                  cases h
                  by_cases hsd : s.suppress_dupes = true
                  · simp only [hsd, if_true] at hp ⊢
                    obtain ⟨_, hrest⟩ := insert_or_find_none _ _ _ hp
                    intro m hm
                    simp only [hrest, List.mem_append, List.mem_singleton] at hm
                    by_cases hmi : m = strtoulUInt xid
                    · simp [setSlot, hmi, hid]
                    · rcases hm with hm | hm
                      · simpa [setSlot, hmi] using hok m hm
                      · exact absurd hm hmi
                  · simp only [hsd, if_false] at hp ⊢
                    intro m hm
                    by_cases hmi : m = strtoulUInt xid
                    · simp [setSlot, hmi, hid]
                    · simpa [setSlot, hmi] using hok m hm
                · rename_i dupe hp
                  cases h
                  by_cases hsd : s.suppress_dupes = true
                  · simp only [hsd, if_true] at hp ⊢
                    obtain ⟨hmem, _, hrest⟩ := insert_or_find_some _ _ _ _ hp
                    have hd : (setSlot s.segments (strtoulUInt xid)
                        ⟨strtoulUInt xid, (s.nodes (strtoulUInt xfrom)).id,
                          (s.nodes (strtoulUInt xto)).id⟩ dupe).id ≠ 0 := by
                      by_cases hdi : dupe = strtoulUInt xid
                      · simp [setSlot, hdi, hid]
                      · simpa [setSlot, hdi] using hok dupe hmem
                    intro m hm
                    simp only [hrest] at hm
                    by_cases hmi : m = strtoulUInt xid
                    · simp only [setSlot, hmi, if_true]
                      exact hd
                    · simpa [setSlot, hmi] using hok m hm
                  · simp only [hsd, if_false] at hp
                    cases hp
              · cases h; exact hok
  · cases h

theorem StartElement_node_edges (env : Env) (s s2 : State env) (reader : Reader)
    (h : StartElement_node env s reader = .ok s2) :
    s2.segments = s.segments ∧ s2.segment_unique = s.segment_unique := by
  unfold StartElement_node at h
  split at h
  · simp only at h
    split at h
    · cases h
    · split at h <;> (cases h; exact ⟨rfl, rfl⟩)
  · cases h

theorem StartElement_tag_edges (env : Env) (s s2 : State env) (reader : Reader)
    (h : StartElement_tag env s reader = .ok s2) :
    s2.segments = s.segments ∧ s2.segment_unique = s.segment_unique := by
  unfold StartElement_tag at h
  split at h
  · cases h; exact ⟨rfl, rfl⟩
  · cases h

theorem StartElement_way_edges (env : Env) (s s2 : State env) (reader : Reader)
    (h : StartElement_way env s reader = .ok s2) :
    s2.segments = s.segments ∧ s2.segment_unique = s.segment_unique := by
  unfold StartElement_way at h
  split at h
  · cases h; exact ⟨rfl, rfl⟩
  · cases h

theorem StartElement_seg_edges (env : Env) (s s2 : State env) (reader : Reader)
    (h : StartElement_seg env s reader = .ok s2) :
    s2.segments = s.segments ∧ s2.segment_unique = s.segment_unique := by
  unfold StartElement_seg at h
  split at h
  · simp only at h
    split at h
    · cases h; exact ⟨rfl, rfl⟩
    · split at h
      · cases h; exact ⟨rfl, rfl⟩
      · split at h <;> (cases h; exact ⟨rfl, rfl⟩)
  · cases h

theorem EndElement_node_edges (env : Env) (s : State env) :
    (EndElement_node env s).state.segments = s.segments ∧
      (EndElement_node env s).state.segment_unique = s.segment_unique := by
  unfold EndElement_node
  split
  · exact ⟨rfl, rfl⟩
  · simp only
    split
    · exact ⟨rfl, rfl⟩
    · split
      · exact ⟨rfl, rfl⟩
      · split <;> exact ⟨rfl, rfl⟩

theorem EndElement_way_edges (env : Env) (s : State env) :
    (EndElement_way env s).state.segments = s.segments ∧
      (EndElement_way env s).state.segment_unique = s.segment_unique := by
  unfold EndElement_way
  split
  · exact ⟨rfl, rfl⟩
  · rename_i osm_id _
    simp only
    split
    · exact ⟨rfl, rfl⟩
    · split
      · rename_i values _
        obtain ⟨segs, g, c, hW, _⟩ := WKT_loop_frame env s.segs s
        unfold WKT
        cases hL : WKT_loop env s.segs s with
        | fault f s1 =>
          rw [hL] at hW
          simp only [Result.state] at hW
          simp [Result.state, hW]
        | ok s1 =>
          rw [hL] at hW
          simp only [Result.state] at hW
          simp only
          generalize (exportLoop s.tags exportTags (none, none, 0)).2.2 = flag
          generalize (exportLoop s.tags exportTags (none, none, 0)).1.getD "(null)" = names
          by_cases hsz : (env.build_geometry s1.geom flag).2 = 0
          · simp only [hsz, ne_eq, not_true_eq_false, if_false, Result.state, resetAll]
            simp [hW]
          · simp only [hsz, ne_eq, not_false_eq_true, if_true]
            obtain ⟨wt, rows, cw, cd, c2, hY, _, _⟩ :=
              wayLoop_frame env (strtoulUInt osm_id) names osm_id values
                (env.build_geometry s1.geom flag).2 0
                { s1 with
                  geom := (env.build_geometry s1.geom flag).1
                  calls := s1.calls ++ [.build_geometry flag] }
            cases hR : wayLoop env (strtoulUInt osm_id) names osm_id values
                (env.build_geometry s1.geom flag).2 0
                { s1 with
                  geom := (env.build_geometry s1.geom flag).1
                  calls := s1.calls ++ [.build_geometry flag] } with
            | fault f s2 =>
              rw [hR] at hY
              simp only [Result.state] at hY
              simp [Result.state, hY, hW]
            | ok s2 =>
              rw [hR] at hY
              simp only [Result.state] at hY
              simp [Result.state, resetAll, hY, hW]
      · exact ⟨rfl, rfl⟩

/-- An event that returns and is not an edge start leaves the edge store and its table as
they are; an edge start keeps the table's members populated. -/
theorem processNode_tableOk (env : Env) (s s2 : State env) (e : Event)
    (hok : SegmentTableOk s) (h : processNode env s e = .ok s2) : SegmentTableOk s2 := by
  have key : s2.segments = s.segments ∧ s2.segment_unique = s.segment_unique → SegmentTableOk s2 := by
    intro hh m hm
    rw [hh.2] at hm
    rw [hh.1]
    exact hok m hm
  cases e with
  | start reader name =>
    simp only [processNode, StartElement] at h
    split at h
    · exact key (StartElement_node_edges env s s2 reader h)
    · split at h
      · exact StartElement_segment_tableOk env s s2 reader hok h
      · split at h
        · exact key (StartElement_tag_edges env s s2 reader h)
        · split at h
          · exact key (StartElement_way_edges env s s2 reader h)
          · split at h
            · exact key (StartElement_seg_edges env s s2 reader h)
            · cases h; exact hok
  | stop name =>
    simp only [processNode, EndElement] at h
    split at h
    · have h2 := EndElement_node_edges env s
      rw [h] at h2
      exact key h2
    · split at h
      · cases h; exact hok
      · split at h
        · cases h; exact hok
        · split at h
          · have h2 := EndElement_way_edges env s
            rw [h] at h2
            exact key h2
          · cases h; exact hok

theorem reachable_tableOk (env : Env) (g : env.Geom) (sd : Bool) (s : State env)
    (h : Reachable env g sd s) : SegmentTableOk s := by
  induction h with
  | init => intro m hm; simp [initState] at hm
  | step s s2 e _ hstep ih => exact processNode_tableOk env s s2 e ih hstep

/-- C4: in a reachable state, an edge start with a valid edge identifier whose `from` and
`to` both name populated point slots with different canonical identifiers (the `id` fields
of those slots) returns, and afterwards the edge slot of that identifier is populated, its
`from` is the canonical identifier of the from point and its `to` that of the to point. -/
theorem edge_start_stores_canonical_endpoints (env : Env) (g : env.Geom) (sd : Bool)
    (s : State env) (reader : Reader) (xid xfrom xto : String)
    (hreach : Reachable env g sd s)
    (hxid : xmlTextReaderGetAttribute reader "id" = some xid)
    (hxfrom : xmlTextReaderGetAttribute reader "from" = some xfrom)
    (hxto : xmlTextReaderGetAttribute reader "to" = some xto)
    (hpos : 0 < strtoulUInt xid) (hmax : strtoulUInt xid < MAX_ID_SEGMENT)
    (hfrom : strtoulUInt xfrom ≤ MAX_ID_NODE) (hto : strtoulUInt xto ≤ MAX_ID_NODE)
    (hfromPop : (s.nodes (strtoulUInt xfrom)).id ≠ 0)
    (htoPop : (s.nodes (strtoulUInt xto)).id ≠ 0)
    (hdiff : (s.nodes (strtoulUInt xfrom)).id ≠ (s.nodes (strtoulUInt xto)).id) :
    ∃ s2, StartElement env s reader "segment" = .ok s2 ∧
      (s2.segments (strtoulUInt xid)).id ≠ 0 ∧
      (s2.segments (strtoulUInt xid)).from_ = (s.nodes (strtoulUInt xfrom)).id ∧
      (s2.segments (strtoulUInt xid)).to_ = (s.nodes (strtoulUInt xto)).id := by
  have hok := reachable_tableOk env g sd s hreach
  have hid : strtoulUInt xid ≠ 0 := by omega
  rw [StartElement_segment_eq]
  unfold StartElement_segment
  rw [hxid, hxfrom, hxto]
  simp only [hpos, hmax, Nat.not_lt.2 hfrom, Nat.not_lt.2 hto, hfromPop, htoPop, hdiff, gt_iff_lt,
    and_self, not_true_eq_false, if_false, ne_eq, not_false_eq_true, if_true]
  split
  · refine ⟨_, rfl, ?_, ?_, ?_⟩ <;> simp [setSlot, hid]
  · rename_i dupe hp
    refine ⟨_, rfl, ?_, ?_, ?_⟩
    · by_cases hsd : s.suppress_dupes = true
      · simp only [hsd, if_true] at hp
        obtain ⟨hmem, _, _⟩ := insert_or_find_some _ _ _ _ hp
        by_cases hdi : dupe = strtoulUInt xid
        · simp [setSlot, hdi, hid]
        · simpa [setSlot, hdi] using hok dupe hmem
      · simp only [hsd, if_false] at hp
        cases hp
    · simp [setSlot]
    · simp [setSlot]

theorem twoPoints_reachable : Reachable (sampleEnv []) ([], []) true twoPoints :=
  Reachable.step onePoint twoPoints (.start (nodeReader "2" "30" "40") "node")
    (Reachable.step (initState (sampleEnv []) ([], []) true) onePoint
      (.start (nodeReader "1" "10" "20") "node") Reachable.init rfl) rfl

/-- C4 at `<segment id="1" from="1" to="2">` after the points `1` and `2`. -/
theorem edge_start_stores_canonical_endpoints_witness :
    ∃ s2, StartElement (sampleEnv []) twoPoints (segmentReader "1" "1" "2") "segment" = .ok s2 ∧
      (s2.segments (strtoulUInt "1")).id ≠ 0 ∧
      (s2.segments (strtoulUInt "1")).from_ = (twoPoints.nodes (strtoulUInt "1")).id ∧
      (s2.segments (strtoulUInt "1")).to_ = (twoPoints.nodes (strtoulUInt "2")).id :=
  edge_start_stores_canonical_endpoints (sampleEnv []) ([], []) true twoPoints
    (segmentReader "1" "1" "2") "1" "1" "2" twoPoints_reachable rfl rfl rfl (by decide)
    (by decide) (by decide) (by decide) (by decide) (by decide) (by decide)

/-- C5, the code at `<segment id="1" from="1" to="40000000">` after the points `1` and `2`:
the identifier passes the assertion, `count_all_segment` is incremented, and the test
`!nodes[to].id` then reads index `40000000` of an array that ends at index `35000000`. -/
theorem edge_start_reads_past_point_store :
    MAX_ID_NODE < strtoulUInt "40000000" ∧
      ∃ s2, StartElement (sampleEnv []) twoPoints (segmentReader "1" "1" "40000000") "segment" =
          .fault (.outOfRange 324) s2 ∧
        s2.count_all_segment = twoPoints.count_all_segment + 1 :=
  ⟨by decide, _, rfl, rfl⟩

/-- The part of C5 that the code meets: with both endpoint indices inside the point store,
an edge start whose endpoint is absent, or whose canonical endpoints coincide, returns and
leaves the edge store and its table unchanged. -/
theorem edge_start_drops_dangling_in_range (env : Env) (s : State env) (reader : Reader)
    (xid xfrom xto : String)
    (hxid : xmlTextReaderGetAttribute reader "id" = some xid)
    (hxfrom : xmlTextReaderGetAttribute reader "from" = some xfrom)
    (hxto : xmlTextReaderGetAttribute reader "to" = some xto)
    (hpos : 0 < strtoulUInt xid) (hmax : strtoulUInt xid < MAX_ID_SEGMENT)
    (hfrom : strtoulUInt xfrom ≤ MAX_ID_NODE) (hto : strtoulUInt xto ≤ MAX_ID_NODE)
    (hdrop : (s.nodes (strtoulUInt xfrom)).id = 0 ∨ (s.nodes (strtoulUInt xto)).id = 0 ∨
      (s.nodes (strtoulUInt xfrom)).id = (s.nodes (strtoulUInt xto)).id) :
    ∃ s2, StartElement env s reader "segment" = .ok s2 ∧ s2.segments = s.segments ∧
      s2.segment_unique = s.segment_unique := by
  rw [StartElement_segment_eq]
  unfold StartElement_segment
  rw [hxid, hxfrom, hxto]
  simp only [hpos, hmax, Nat.not_lt.2 hfrom, Nat.not_lt.2 hto, gt_iff_lt, and_self,
    not_true_eq_false, if_false]
  by_cases h1 : (s.nodes (strtoulUInt xto)).id = 0
  · simp only [h1, if_true]
    exact ⟨_, rfl, rfl, rfl⟩
  · by_cases h2 : (s.nodes (strtoulUInt xfrom)).id = 0
    · simp only [h1, h2, if_true, if_false]
      exact ⟨_, rfl, rfl, rfl⟩
    · have h3 : (s.nodes (strtoulUInt xfrom)).id = (s.nodes (strtoulUInt xto)).id := by
        rcases hdrop with h | h | h
        · exact absurd h h2
        · exact absurd h h1
        · exact h
      simp only [h1, h2, h3, if_false, ne_eq, not_true_eq_false]
      exact ⟨_, rfl, rfl, rfl⟩

/-! ## Identifier bounds -/

/-- The part of C9 that the code meets. A point start with its attributes present fails if
and only if its identifier is `0` or at least `MAX_ID_NODE`, and then nothing has changed.
An edge start with its attributes present whose identifier is `0` or at least
`MAX_ID_SEGMENT` fails with nothing changed; with a valid identifier it passes line 313. -/
theorem bad_identifier_is_fatal_and_atomic (env : Env) (s : State env) (reader : Reader)
    (xid a b : String) (hxid : xmlTextReaderGetAttribute reader "id" = some xid) :
    (xmlTextReaderGetAttribute reader "lon" = some a →
      xmlTextReaderGetAttribute reader "lat" = some b →
        ((StartElement env s reader "node").isOk = false ↔
          (strtoulUInt xid = 0 ∨ MAX_ID_NODE ≤ strtoulUInt xid)) ∧
        ((StartElement env s reader "node").isOk = false →
          StartElement env s reader "node" = .fault (.assertFailed 280) s)) ∧
    (xmlTextReaderGetAttribute reader "from" = some a →
      xmlTextReaderGetAttribute reader "to" = some b →
        ((strtoulUInt xid = 0 ∨ MAX_ID_SEGMENT ≤ strtoulUInt xid) ↔
          StartElement env s reader "segment" = .fault (.assertFailed 313) s)) := by
  constructor
  · intro ha hb
    rw [StartElement_node_eq]
    unfold StartElement_node
    rw [hxid, ha, hb]
    simp only
    by_cases hv : strtoulUInt xid > 0 ∧ strtoulUInt xid < MAX_ID_NODE
    · simp only [hv, and_self, not_true_eq_false, if_false]
      constructor
      · constructor
        · intro h
          split at h <;> simp [Result.isOk] at h
        · intro h
          omega
      · intro h
        split at h <;> simp [Result.isOk] at h
    · simp only [hv, not_false_eq_true, if_true, Result.isOk, true_iff, forall_const]
      refine ⟨?_, trivial⟩
      omega
  · intro ha hb
    rw [StartElement_segment_eq]
    unfold StartElement_segment
    rw [hxid, ha, hb]
    simp only
    by_cases hv : strtoulUInt xid > 0 ∧ strtoulUInt xid < MAX_ID_SEGMENT
    · simp only [hv, and_self, not_true_eq_false, if_false]
      constructor
      · intro h
        omega
      · intro h
        exfalso
        repeat' split at h
        all_goals cases h
    · simp only [hv, not_false_eq_true, if_true, iff_true]
      omega

/-- C9, the code at `<segment id="1" from="4000000000" to="1">` after the points `1` and
`2`: the identifier `1` is valid, yet the event fails, on the read of `nodes[from]` past the
end of the array, and `count_all_segment` has been incremented by then. -/
theorem edge_start_fails_with_valid_identifier :
    (0 < strtoulUInt "1" ∧ strtoulUInt "1" < MAX_ID_SEGMENT) ∧
      (StartElement (sampleEnv []) twoPoints (segmentReader "1" "4000000000" "1")
        "segment").isOk = false ∧
      (StartElement (sampleEnv []) twoPoints (segmentReader "1" "4000000000" "1")
        "segment").state.count_all_segment ≠ twoPoints.count_all_segment := by
  decide

/-! ## Shape scheme -/

/-- C7, the code at a shape `5` tagged `highway=residential` with one child reference, for
which the geometry builder returns two different non-empty texts, duplicate suppression
enabled and `way_tree` empty: the first text is written and enters `way_tree`; the second
probes as a duplicate of the first, since `compare_way` returns `0` on the equal shape id
before it compares the texts, so it is dropped and counted. One row, not two. -/
theorem shape_end_drops_second_geometry_of_shape :
    (EndElement (sampleEnv ["LINESTRING(0 0,1 1)", "LINESTRING(2 2,3 3)"])
        (shapeWithTag ["LINESTRING(0 0,1 1)", "LINESTRING(2 2,3 3)"] true "highway" "residential")
        "way").isOk = true ∧
      (EndElement (sampleEnv ["LINESTRING(0 0,1 1)", "LINESTRING(2 2,3 3)"])
        (shapeWithTag ["LINESTRING(0 0,1 1)", "LINESTRING(2 2,3 3)"] true "highway" "residential")
        "way").state.out = [⟨"\"highway\"", "5", "$$residential$$", "LINESTRING(0 0,1 1)"⟩] ∧
      (EndElement (sampleEnv ["LINESTRING(0 0,1 1)", "LINESTRING(2 2,3 3)"])
        (shapeWithTag ["LINESTRING(0 0,1 1)", "LINESTRING(2 2,3 3)"] true "highway" "residential")
        "way").state.count_dupe_way = 1 ∧
      (EndElement (sampleEnv ["LINESTRING(0 0,1 1)", "LINESTRING(2 2,3 3)"])
        (shapeWithTag ["LINESTRING(0 0,1 1)", "LINESTRING(2 2,3 3)"] true "highway" "residential")
        "way").state.way_tree = [⟨5, "$$residential$$", "LINESTRING(0 0,1 1)"⟩] := by
  decide

/-! ## Point scheme -/

/-- C3 as stated fails: after point `1` at `(10, 20)`, point `1` again at `(30, 40)` and
point `2` at `(10, 20)`, all with valid identifiers and from the empty store, the third
point has the coordinates of the first, yet slot `2` keeps the identifier `2` and the point
enters the canonical point set. -/
theorem redefined_point_is_not_resolved :
    (∀ p ∈ redefinedPoint, 0 < p.id ∧ p.id < MAX_ID_NODE) ∧
      sameCoords (sampleEnv []) ⟨"1", "10", "20"⟩ ⟨"2", "10", "20"⟩ = true ∧
      (streamFile (sampleEnv []) (pointEvents redefinedPoint)
        (initState (sampleEnv []) ([], []) true)).isOk = true ∧
      ((streamFile (sampleEnv []) (pointEvents redefinedPoint)
        (initState (sampleEnv []) ([], []) true)).state.nodes 2).id = 2 ∧
      (streamFile (sampleEnv []) (pointEvents redefinedPoint)
        (initState (sampleEnv []) ([], []) true)).state.node_positions = [1, 2] := by
  decide

/-- A NaN coordinate defeats the point scheme too: after point `1` at `(NaN, 5)`, the points
`2` and `3` at `(7, 5)` both compare equal to point `1`, so slot `3` holds the identifier
`1`, not that of point `2`, the first point with its coordinates. -/
theorem nan_point_captures_later_points :
    (nanThenTwins.map PointRec.id = [1, 2, 3]) ∧
      sameCoords (sampleEnv []) ⟨"1", "nan", "5"⟩ ⟨"3", "7", "5"⟩ = false ∧
      sameCoords (sampleEnv []) ⟨"2", "7", "5"⟩ ⟨"3", "7", "5"⟩ = true ∧
      ((streamFile (sampleEnv []) (pointEvents nanThenTwins)
        (initState (sampleEnv []) ([], []) true)).state.nodes 3).id = 1 := by
  decide

theorem Dbl.lt_iff (a b : Dbl) (ha : a.isNaN = false) (hb : b.isNaN = false) :
    a.lt b = true ↔ a.key < b.key := by
  simp [Dbl.lt, ha, hb]

theorem Dbl.eq_iff (a b : Dbl) (ha : a.isNaN = false) (hb : b.isNaN = false) :
    a.eq b = true ↔ a.key = b.key := by
  simp [Dbl.eq, ha, hb]

theorem sameCoords_iff (env : Env) (p q : PointRec) (hp : p.isNumber env) (hq : q.isNumber env) :
    sameCoords env p q = true ↔ coordKey env p = coordKey env q := by
  unfold sameCoords coordKey
  rw [Bool.and_eq_true, Dbl.eq_iff _ _ hp.1 hq.1, Dbl.eq_iff _ _ hp.2 hq.2, Prod.mk.injEq]

/-- Between two different slots with different identifiers and no NaN, `compare_node`
returns `0` exactly when the coordinates are equal. -/
theorem compare_node_eq_zero (nodes : Nat → osmNode) (a b : Nat) (hab : a ≠ b)
    (hid : (nodes a).id ≠ (nodes b).id)
    (h1 : (nodes a).lon.isNaN = false) (h2 : (nodes a).lat.isNaN = false)
    (h3 : (nodes b).lon.isNaN = false) (h4 : (nodes b).lat.isNaN = false) :
    compare_node nodes a b = 0 ↔
      (nodes a).lon.key = (nodes b).lon.key ∧ (nodes a).lat.key = (nodes b).lat.key := by
  unfold compare_node
  simp only [hab, hid, if_false]
  by_cases c1 : (nodes a).lon.lt (nodes b).lon = true
  · have := (Dbl.lt_iff _ _ h1 h3).1 c1
    simp only [c1, if_true]
    constructor
    · intro h; cases h
    · intro h; omega
  · by_cases c2 : (nodes b).lon.lt (nodes a).lon = true
    · have := (Dbl.lt_iff _ _ h3 h1).1 c2
      simp only [c1, c2, if_true, if_false]
      constructor
      · intro h; cases h
      · intro h; omega
    · by_cases c3 : (nodes a).lat.lt (nodes b).lat = true
      · have := (Dbl.lt_iff _ _ h2 h4).1 c3
        simp only [c1, c2, c3, if_true, if_false]
        constructor
        · intro h; cases h
        · intro h; omega
      · by_cases c4 : (nodes b).lat.lt (nodes a).lat = true
        · have := (Dbl.lt_iff _ _ h4 h2).1 c4
          simp only [c1, c2, c3, c4, if_true, if_false]
          constructor
          · intro h; cases h
          · intro h; omega
        · have e1 := mt (Dbl.lt_iff _ _ h1 h3).2 c1
          have e2 := mt (Dbl.lt_iff _ _ h3 h1).2 c2
          have e3 := mt (Dbl.lt_iff _ _ h2 h4).2 c3
          have e4 := mt (Dbl.lt_iff _ _ h4 h2).2 c4
          have hk1 : (nodes a).lon.key = (nodes b).lon.key := by omega
          have hk2 : (nodes a).lat.key = (nodes b).lat.key := by omega
          simp [c1, c2, c3, c4, hk1, hk2]

theorem firstWithKey_append_of_some (env : Env) (l : List PointRec) (p r : PointRec)
    (k : Int × Int) (h : firstWithKey env l k = some r) :
    firstWithKey env (l ++ [p]) k = some r := by
  unfold firstWithKey at h ⊢
  rw [List.find?_append, h]
  rfl

theorem firstWithKey_append_of_none (env : Env) (l : List PointRec) (p : PointRec)
    (h : firstWithKey env l (coordKey env p) = none) :
    firstWithKey env (l ++ [p]) (coordKey env p) = some p := by
  unfold firstWithKey at h ⊢
  rw [List.find?_append, h]
  simp [List.find?]

theorem firstWithKey_some (env : Env) (l : List PointRec) (r : PointRec) (k : Int × Int)
    (h : firstWithKey env l k = some r) : r ∈ l ∧ coordKey env r = k := by
  unfold firstWithKey at h
  exact ⟨List.mem_of_find?_eq_some h, by simpa using List.find?_some h⟩

theorem firstWithKey_none (env : Env) (l : List PointRec) (k : Int × Int)
    (h : firstWithKey env l k = none) : ∀ q ∈ l, coordKey env q ≠ k := by
  unfold firstWithKey at h
  intro q hq
  simpa using List.find?_eq_none.1 h q hq

theorem firstWithKey_isSome (env : Env) (l : List PointRec) (q : PointRec) (hq : q ∈ l) :
    ∃ r, firstWithKey env l (coordKey env q) = some r := by
  cases h : firstWithKey env l (coordKey env q) with
  | some r => exact ⟨r, rfl⟩
  | none => exact absurd rfl (firstWithKey_none env l _ h q hq)

theorem setSlot_same {α : Type} (a : Nat → α) (i : Nat) (v : α) : setSlot a i v i = v := by
  simp [setSlot]

theorem setSlot_other {α : Type} (a : Nat → α) (i j : Nat) (v : α) (h : j ≠ i) :
    setSlot a i v j = a j := by
  simp [setSlot, h]

/-- A table member is the slot of a first point and still holds that point. -/
theorem PointInv.member_slot {env : Env} {done : List PointRec} {s : State env}
    (hinv : PointInv env done s) (m : Nat) (hm : m ∈ s.node_positions) :
    ∃ q ∈ done, q.id = m ∧ s.nodes m = ⟨m, q.lon env, q.lat env⟩ ∧
      firstWithKey env done (coordKey env q) = some q := by
  obtain ⟨q, hq, hqm, hfirst⟩ := hinv.member m hm
  obtain ⟨r, hr, hslot⟩ := hinv.slot q hq
  rw [hfirst] at hr
  cases hr
  refine ⟨q, hq, hqm, ?_, hfirst⟩
  rw [← hqm]
  exact hslot

/-- The probe of a new point against a table member compares coordinates. -/
theorem probe_member_iff (env : Env) (s : State env) (p q : PointRec) (m : Nat)
    (hp : p.isNumber env) (hq : q.isNumber env) (hne : m ≠ p.id)
    (hslot : s.nodes m = ⟨m, q.lon env, q.lat env⟩) :
    compare_node (setSlot s.nodes p.id ⟨p.id, p.lon env, p.lat env⟩) p.id m = 0 ↔
      coordKey env p = coordKey env q := by
  have e1 : setSlot s.nodes p.id ⟨p.id, p.lon env, p.lat env⟩ p.id =
      ⟨p.id, p.lon env, p.lat env⟩ := setSlot_same _ _ _
  have e2 : setSlot s.nodes p.id ⟨p.id, p.lon env, p.lat env⟩ m =
      ⟨m, q.lon env, q.lat env⟩ := by rw [setSlot_other _ _ _ _ hne, hslot]
  rw [compare_node_eq_zero _ _ _ (fun h => hne h.symm)]
  · rw [e1, e2]
    simp [coordKey]
  · rw [e1, e2]; exact fun h => hne h.symm
  · rw [e1]; exact hp.1
  · rw [e1]; exact hp.2
  · rw [e2]; exact hq.1
  · rw [e2]; exact hq.2

/-- One more point start, with a fresh valid identifier and no NaN, keeps `PointInv`. -/
theorem point_start_keeps_inv (env : Env) (done : List PointRec) (s : State env) (p : PointRec)
    (hinv : PointInv env done s)
    (hnum : ∀ q ∈ done, q.isNumber env) (hp : p.isNumber env)
    (hpos : 0 < p.id) (hmax : p.id < MAX_ID_NODE)
    (hfresh : ∀ q ∈ done, q.id ≠ p.id) :
    ∃ s2, StartElement env s (nodeReader p.xid p.xlon p.xlat) "node" = .ok s2 ∧
      PointInv env (done ++ [p]) s2 := by
  have hattr1 : xmlTextReaderGetAttribute (nodeReader p.xid p.xlon p.xlat) "id" = some p.xid := rfl
  have hattr2 : xmlTextReaderGetAttribute (nodeReader p.xid p.xlon p.xlat) "lon" = some p.xlon := rfl
  have hattr3 : xmlTextReaderGetAttribute (nodeReader p.xid p.xlon p.xlat) "lat" = some p.xlat := rfl
  have hpos2 : 0 < strtoulUInt p.xid := hpos
  have hmax2 : strtoulUInt p.xid < MAX_ID_NODE := hmax
  have hfresh2 : ∀ q ∈ done, q.id ≠ strtoulUInt p.xid := hfresh
  have hen := hinv.enabled
  -- the old slots survive the write of the new one
  have hold : ∀ q ∈ done, ∀ v, setSlot s.nodes (strtoulUInt p.xid) v q.id = s.nodes q.id :=
    fun q hq v => setSlot_other _ _ _ _ (hfresh2 q hq)
  have hslotOld : ∀ (f : Nat → osmNode), (∀ q ∈ done, f q.id = s.nodes q.id) →
      ∀ q ∈ done, ∃ r, firstWithKey env (done ++ [p]) (coordKey env q) = some r ∧
        f q.id = ⟨r.id, q.lon env, q.lat env⟩ := by
    intro f hf q hq
    obtain ⟨r, hr, hslot⟩ := hinv.slot q hq
    exact ⟨r, firstWithKey_append_of_some env done p r _ hr, by rw [hf q hq, hslot]⟩
  have hmemberOld : ∀ m ∈ s.node_positions, ∃ q ∈ done ++ [p], q.id = m ∧
      firstWithKey env (done ++ [p]) (coordKey env q) = some q := by
    intro m hm
    obtain ⟨q, hq, hqm, hfirst⟩ := hinv.member m hm
    exact ⟨q, List.mem_append_left _ hq, hqm, firstWithKey_append_of_some env done p q _ hfirst⟩
  have hfirstOld : ∀ q ∈ done, ∀ r, firstWithKey env (done ++ [p]) (coordKey env q) = some r →
      r.id ∈ s.node_positions := by
    intro q hq r hr
    obtain ⟨r2, hr2⟩ := firstWithKey_isSome env done q hq
    have h3 := firstWithKey_append_of_some env done p r2 _ hr2
    rw [h3] at hr
    have e : r2 = r := Option.some.inj hr
    rw [← e]
    exact hinv.first q hq r2 hr2
  rw [StartElement_node_eq]
  unfold StartElement_node
  rw [hattr1, hattr2, hattr3]
  simp only [hpos2, hmax2, gt_iff_lt, and_self, not_true_eq_false, if_false]
  rw [if_pos hen]
  split
  · rename_i hprobe
    obtain ⟨hnone, htable⟩ := insert_or_find_none _ _ _ hprobe
    -- no point so far has the coordinates of `p`
    have hnew : firstWithKey env done (coordKey env p) = none := by
      cases hf : firstWithKey env done (coordKey env p) with
      | none => rfl
      | some r =>
        exfalso
        obtain ⟨hr, hk⟩ := firstWithKey_some env done r _ hf
        have hr2 : firstWithKey env done (coordKey env r) = some r := by rw [hk]; exact hf
        have hrm := hinv.first r hr r hr2
        obtain ⟨r3, hr3, hs3⟩ := hinv.slot r hr
        rw [hr2] at hr3
        have e : r = r3 := Option.some.inj hr3
        rw [← e] at hs3
        have hz := (probe_member_iff env s p r r.id hp (hnum r hr) (hfresh r hr) hs3).2 hk.symm
        exact hnone r.id hrm hz
    have hpfirst := firstWithKey_append_of_none env done p hnew
    refine ⟨_, rfl, ?_⟩
    constructor
    · exact hen
    · intro q hq
      rcases List.mem_append.1 hq with hq | hq
      · exact hslotOld _ (fun q hq => hold q hq _) q hq
      · rw [List.mem_singleton] at hq
        subst hq
        exact ⟨q, hpfirst, setSlot_same _ _ _⟩
    · intro m hm
      simp only [htable, List.mem_append, List.mem_singleton] at hm
      rcases hm with hm | hm
      · exact hmemberOld m hm
      · exact ⟨p, List.mem_append_right _ (List.mem_singleton_self p), hm.symm, hpfirst⟩
    · intro q hq r hr
      simp only [htable, List.mem_append, List.mem_singleton]
      rcases List.mem_append.1 hq with hq | hq
      · exact Or.inl (hfirstOld q hq r hr)
      · rw [List.mem_singleton] at hq
        subst hq
        rw [hpfirst] at hr
        have e : q = r := Option.some.inj hr
        rw [← e]
        exact Or.inr rfl
  · rename_i dupe hprobe
    obtain ⟨hmem, hzero, htable⟩ := insert_or_find_some _ _ _ _ hprobe
    obtain ⟨q, hq, hqm, hslot, hfirst⟩ := hinv.member_slot dupe hmem
    have hne : dupe ≠ strtoulUInt p.xid := by rw [← hqm]; exact hfresh q hq
    have hk := (probe_member_iff env s p q dupe hp (hnum q hq) hne hslot).1 hzero
    have hpfirst : firstWithKey env (done ++ [p]) (coordKey env p) = some q := by
      rw [hk]
      exact firstWithKey_append_of_some env done p q _ hfirst
    have hdupe : (setSlot s.nodes (strtoulUInt p.xid)
        ⟨strtoulUInt p.xid, env.strtod p.xlon, env.strtod p.xlat⟩ dupe).id = q.id := by
      rw [setSlot_other _ _ _ _ hne, hslot, hqm]
    refine ⟨_, rfl, ?_⟩
    constructor
    · exact hen
    · intro q2 hq2
      rcases List.mem_append.1 hq2 with hq2 | hq2
      · refine hslotOld _ (fun q3 hq3 => ?_) q2 hq2
        show setSlot _ _ _ q3.id = s.nodes q3.id
        rw [setSlot_other _ _ _ _ (hfresh2 q3 hq3), setSlot_other _ _ _ _ (hfresh2 q3 hq3)]
      · rw [List.mem_singleton] at hq2
        subst hq2
        refine ⟨q, hpfirst, ?_⟩
        show setSlot _ _ _ (strtoulUInt q2.xid) = _
        rw [setSlot_same, hdupe]
        rfl
    · intro m hm
      simp only [htable] at hm
      exact hmemberOld m hm
    · intro q2 hq2 r hr
      simp only [htable]
      rcases List.mem_append.1 hq2 with hq2 | hq2
      · exact hfirstOld q2 hq2 r hr
      · rw [List.mem_singleton] at hq2
        subst hq2
        rw [hpfirst] at hr
        have e : q = r := Option.some.inj hr
        rw [← e, hqm]
        exact hmem

theorem streamFile_cons_ok (env : Env) (e : Event) (rest : List Event) (s s1 : State env)
    (h : processNode env s e = .ok s1) :
    streamFile env (e :: rest) s = streamFile env rest s1 := by
  simp [streamFile, h]

theorem pointInv_init (env : Env) (g : env.Geom) : PointInv env [] (initState env g true) where
  enabled := rfl
  slot := by intro q hq; simp at hq
  member := by intro m hm; simp [initState] at hm
  first := by intro q hq; simp at hq

/-- A run of point starts with pairwise different valid identifiers and no NaN returns and
keeps `PointInv`. -/
theorem point_starts_keep_inv (env : Env) :
    ∀ (rest done : List PointRec) (s : State env),
      PointInv env done s →
      (∀ q ∈ done ++ rest, q.isNumber env) →
      (∀ q ∈ rest, 0 < q.id ∧ q.id < MAX_ID_NODE) →
      ((done ++ rest).map PointRec.id).Nodup →
      ∃ s2, streamFile env (pointEvents rest) s = .ok s2 ∧ PointInv env (done ++ rest) s2 := by
  intro rest
  induction rest with
  | nil =>
    intro done s hinv _ _ _
    exact ⟨s, rfl, by simpa using hinv⟩
  | cons p rest ih =>
    intro done s hinv hnum hvalid hnodup
    have hfresh : ∀ q ∈ done, q.id ≠ p.id := by
      intro q hq he
      rw [List.map_append, List.nodup_append] at hnodup
      exact hnodup.2.2 (List.mem_map_of_mem _ hq)
        (by rw [he]; exact List.mem_map_of_mem _ (List.mem_cons_self p rest))
    obtain ⟨s1, hstep, hinv1⟩ := point_start_keeps_inv env done s p hinv
      (fun q hq => hnum q (List.mem_append_left _ hq))
      (hnum p (List.mem_append_right _ (List.mem_cons_self _ _)))
      (hvalid p (List.mem_cons_self _ _)).1 (hvalid p (List.mem_cons_self _ _)).2 hfresh
    have hassoc : done ++ [p] ++ rest = done ++ p :: rest := by simp
    obtain ⟨s2, hrun, hinv2⟩ := ih (done ++ [p]) s1 hinv1
      (by rw [hassoc]; exact hnum)
      (fun q hq => hvalid q (List.mem_cons_of_mem _ hq))
      (by rw [hassoc]; exact hnodup)
    refine ⟨s2, ?_, by rw [← hassoc]; exact hinv2⟩
    have hev : pointEvents (p :: rest) =
        Event.start (nodeReader p.xid p.xlon p.xlat) "node" :: pointEvents rest := rfl
    rw [hev, streamFile_cons_ok env (Event.start (nodeReader p.xid p.xlon p.xlat) "node") _ s s1
      hstep]
    exact hrun

theorem find?_congr_mem {α : Type} (f g : α → Bool) :
    ∀ (l : List α), (∀ x ∈ l, f x = g x) → l.find? f = l.find? g := by
  intro l
  induction l with
  | nil => intro _; rfl
  | cons x xs ih =>
    intro h
    have hx := h x (List.mem_cons_self _ _)
    have hxs := ih (fun y hy => h y (List.mem_cons_of_mem _ hy))
    simp only [List.find?_cons, hx, hxs]

/-- C3 as amended: with the point scheme enabled, for every sequence of point starts with
valid and pairwise different identifiers and without NaN coordinates, processed from the
empty store, the run returns, and every point whose longitude and latitude equal those of
an earlier point of the sequence ends with the `id` field of its slot holding the
identifier of the first point with those coordinates, and is not in the canonical point
set. -/
theorem duplicate_points_resolve_to_first_seen (env : Env) (g : env.Geom)
    (pts : List PointRec)
    (hvalid : ∀ p ∈ pts, 0 < p.id ∧ p.id < MAX_ID_NODE)
    (hdistinct : (pts.map PointRec.id).Nodup)
    (hnum : ∀ p ∈ pts, p.isNumber env) :
    ∃ s, streamFile env (pointEvents pts) (initState env g true) = .ok s ∧
      ∀ (before after : List PointRec) (p : PointRec), pts = before ++ p :: after →
        (∃ q ∈ before, sameCoords env q p = true) →
        ∃ r, before.find? (fun q => sameCoords env q p) = some r ∧
          (s.nodes p.id).id = r.id ∧ p.id ∉ s.node_positions := by
  obtain ⟨s, hrun, hinv⟩ := point_starts_keep_inv env pts [] (initState env g true)
    (pointInv_init env g) (by simpa using hnum) hvalid (by simpa using hdistinct)
  rw [List.nil_append] at hinv
  refine ⟨s, hrun, ?_⟩
  intro before after p hsplit hearlier
  have hpmem : p ∈ pts := by rw [hsplit]; simp
  have hbefore : ∀ q ∈ before, q ∈ pts := by
    intro q hq; rw [hsplit]; exact List.mem_append_left _ hq
  -- the search by coordinates is the search by keys
  have hcongr : before.find? (fun q => sameCoords env q p) =
      firstWithKey env before (coordKey env p) := by
    unfold firstWithKey
    apply find?_congr_mem
    intro x hx
    have h1 := sameCoords_iff env x p (hnum x (hbefore x hx)) (hnum p hpmem)
    by_cases hc : coordKey env x = coordKey env p
    · simp [hc, h1.2 hc]
    · have : sameCoords env x p = false := by
        cases hsc : sameCoords env x p with
        | false => rfl
        | true => exact absurd (h1.1 hsc) hc
      simp [hc, this]
  obtain ⟨q, hq, hqp⟩ := hearlier
  have hqk := (sameCoords_iff env q p (hnum q (hbefore q hq)) (hnum p hpmem)).1 hqp
  obtain ⟨r, hr⟩ : ∃ r, firstWithKey env before (coordKey env p) = some r := by
    rw [← hqk]
    exact firstWithKey_isSome env before q hq
  have hrall : firstWithKey env pts (coordKey env p) = some r := by
    unfold firstWithKey at hr ⊢
    rw [hsplit, List.find?_append, hr]
    rfl
  obtain ⟨r2, hr2, hslot⟩ := hinv.slot p hpmem
  rw [hrall] at hr2
  have e : r = r2 := Option.some.inj hr2
  rw [← e] at hslot
  refine ⟨r, by rw [hcongr]; exact hr, by rw [hslot], ?_⟩
  intro hin
  obtain ⟨q2, hq2, hq2id, hq2first⟩ := hinv.member p.id hin
  have hq2p : q2 = p := List.inj_on_of_nodup_map hdistinct hq2 hpmem hq2id
  rw [hq2p, hrall] at hq2first
  have e2 : r = p := Option.some.inj hq2first
  have hrb : r ∈ before := (firstWithKey_some env before r _ hr).1
  rw [e2] at hrb
  rw [hsplit, List.map_append, List.nodup_append] at hdistinct
  exact hdistinct.2.2 (List.mem_map_of_mem _ hrb)
    (List.mem_map_of_mem _ (List.mem_cons_self p after))

/-- C3 as amended, at point `1` then point `2` at the same coordinates. -/
theorem duplicate_points_resolve_to_first_seen_witness :
    ∃ s, streamFile (sampleEnv []) (pointEvents twins) (initState (sampleEnv []) ([], []) true) =
        .ok s ∧
      ∀ (before after : List PointRec) (p : PointRec), twins = before ++ p :: after →
        (∃ q ∈ before, sameCoords (sampleEnv []) q p = true) →
        ∃ r, before.find? (fun q => sameCoords (sampleEnv []) q p) = some r ∧
          (s.nodes p.id).id = r.id ∧ p.id ∉ s.node_positions :=
  duplicate_points_resolve_to_first_seen (sampleEnv []) ([], []) twins (by decide) (by decide)
    (by decide)

/-- The example of C3: point `1` then point `2` at the same coordinates leaves slot `2`
with the identifier `1`, and the canonical point set with point `1` alone. -/
theorem twins_resolve_to_point_one :
    ((streamFile (sampleEnv []) (pointEvents twins)
        (initState (sampleEnv []) ([], []) true)).state.nodes 2).id = 1 ∧
      (streamFile (sampleEnv []) (pointEvents twins)
        (initState (sampleEnv []) ([], []) true)).state.node_positions = [1] := by
  decide

/-! ## The attribute list -/

theorem popAll_eq (l : List keyval) : popAll l = l := by
  induction l with
  | nil => unfold popAll; rfl
  | cons x xs ih =>
    unfold popAll
    simp only [popItem]
    rw [ih]

theorem addItems_eq (es : List keyval) : ∀ head, addItems head es = es.reverse ++ head := by
  induction es with
  | nil => intro head; rfl
  | cons e rest ih =>
    intro head
    have h : addItems head (e :: rest) = addItems (e :: head) rest := by
      simp [addItems, addItem]
    rw [h, ih]
    simp

/-- C11 as stated fails: `addItem` links the new entry right after the head, so after
`k=1` then `k=2` the list, read from its head or by repeated `popItem`, yields `k=2` first. -/
theorem addItem_iteration_is_not_insertion_order :
    addItems [] [⟨"k", "1"⟩, ⟨"k", "2"⟩] = [⟨"k", "2"⟩, ⟨"k", "1"⟩] ∧
      popAll (addItems [] [⟨"k", "1"⟩, ⟨"k", "2"⟩]) = [⟨"k", "2"⟩, ⟨"k", "1"⟩] ∧
      popAll (addItems [] [⟨"k", "1"⟩, ⟨"k", "2"⟩]) ≠ [⟨"k", "1"⟩, ⟨"k", "2"⟩] := by
  rw [popAll_eq]
  decide

/-- C11 as amended: for every sequence of entries `e1..en` added with `addItem` (no
duplicate suppression) to an empty list, the list from its head, and repeated `popItem`,
yield `en, ..., e1`: the reverse of the insertion order. -/
theorem addItem_iteration_is_reverse_insertion_order (es : List keyval) :
    addItems [] es = es.reverse ∧ popAll (addItems [] es) = es.reverse := by
  rw [popAll_eq, addItems_eq]
  simp

/-! ## Child-reference leaf -/

theorem StartElement_seg_eq (env : Env) (s : State env) (reader : Reader) :
    StartElement env s reader "seg" = StartElement_seg env s reader := by
  have h1 : ¬ ("seg" = "node") := by decide
  have h2 : ¬ ("seg" = "segment") := by decide
  have h3 : ¬ ("seg" = "tag") := by decide
  have h4 : ¬ ("seg" = "way") := by decide
  simp [StartElement, h1, h2, h3, h4]

/-- A child reference whose id is zero, beyond `MAX_ID_SEGMENT` or names an absent edge
slot is skipped: the event returns the state it was given. -/
theorem dangling_seg_is_skipped (env : Env) (s : State env) (reader : Reader) (xid : String)
    (hxid : xmlTextReaderGetAttribute reader "id" = some xid)
    (hbad : strtoulUInt xid = 0 ∨ MAX_ID_SEGMENT < strtoulUInt xid ∨
      (s.segments (strtoulUInt xid)).id = 0) :
    StartElement env s reader "seg" = .ok s := by
  rw [StartElement_seg_eq]
  unfold StartElement_seg
  rw [hxid]
  simp only
  by_cases h1 : strtoulUInt xid = 0 ∨ strtoulUInt xid > MAX_ID_SEGMENT
  · simp only [h1, if_true]
  · simp only [h1, if_false]
    have h2 : (s.segments (strtoulUInt xid)).id = 0 := by
      rcases hbad with h | h | h
      · exact absurd (Or.inl h) h1
      · exact absurd (Or.inr h) h1
      · exact h
    simp only [h2, if_true]

/-- C13: a child-reference leaf whose parsed id is zero, exceeds the edge identifier bound
or names an absent edge slot returns without failure (the edge store is read only at an
index within its bounds) and leaves the child-reference list, the id/key list, the tag list
and both entity stores with their tables unchanged. -/
theorem dangling_seg_changes_nothing (env : Env) (s : State env) (reader : Reader)
    (xid : String)
    (hxid : xmlTextReaderGetAttribute reader "id" = some xid)
    (hbad : strtoulUInt xid = 0 ∨ MAX_ID_SEGMENT < strtoulUInt xid ∨
      (s.segments (strtoulUInt xid)).id = 0) :
    ∃ s2, StartElement env s reader "seg" = .ok s2 ∧
      s2.segs = s.segs ∧ s2.keys = s.keys ∧ s2.tags = s.tags ∧
      s2.nodes = s.nodes ∧ s2.segments = s.segments ∧
      s2.node_positions = s.node_positions ∧ s2.segment_unique = s.segment_unique :=
  ⟨s, dangling_seg_is_skipped env s reader xid hxid hbad, rfl, rfl, rfl, rfl, rfl, rfl, rfl⟩

/-- C13 at `<seg id="99">` inside a shape, with no edge stored. -/
theorem dangling_seg_changes_nothing_witness :
    ∃ s2, StartElement (sampleEnv []) (shapeWithTag [] false "name" "Foo") (idReader "99") "seg" =
        .ok s2 ∧
      s2.segs = (shapeWithTag [] false "name" "Foo").segs ∧
      s2.keys = (shapeWithTag [] false "name" "Foo").keys ∧
      s2.tags = (shapeWithTag [] false "name" "Foo").tags ∧
      s2.nodes = (shapeWithTag [] false "name" "Foo").nodes ∧
      s2.segments = (shapeWithTag [] false "name" "Foo").segments ∧
      s2.node_positions = (shapeWithTag [] false "name" "Foo").node_positions ∧
      s2.segment_unique = (shapeWithTag [] false "name" "Foo").segment_unique :=
  dangling_seg_changes_nothing (sampleEnv []) (shapeWithTag [] false "name" "Foo") (idReader "99")
    "99" rfl (by decide)

/-- C14 as stated fails: a shape with a single reference to the missing edge `99` leaves
all ten counters as the same shape without the reference does; the dropped reference is
counted nowhere. -/
theorem dangling_seg_is_not_counted :
    (streamFile (sampleEnv []) shapeWithDanglingRef
        (initState (sampleEnv []) ([], []) false)).isOk = true ∧
      counters (streamFile (sampleEnv []) shapeWithDanglingRef
          (initState (sampleEnv []) ([], []) false)).state =
        counters (streamFile (sampleEnv []) shapeWithoutRef
          (initState (sampleEnv []) ([], []) false)).state := by
  decide

/-- C14 as amended: a dropped dangling child reference is not counted. Processing a
child-reference leaf that names an absent or invalid edge returns and leaves every one of
the run's counters unchanged. -/
theorem dangling_seg_leaves_counters (env : Env) (s : State env) (reader : Reader)
    (xid : String)
    (hxid : xmlTextReaderGetAttribute reader "id" = some xid)
    (hbad : strtoulUInt xid = 0 ∨ MAX_ID_SEGMENT < strtoulUInt xid ∨
      (s.segments (strtoulUInt xid)).id = 0) :
    ∃ s2, StartElement env s reader "seg" = .ok s2 ∧ counters s2 = counters s :=
  ⟨s, dangling_seg_is_skipped env s reader xid hxid hbad, rfl⟩

/-- C14 as amended, at `<seg id="99">` inside a shape, with no edge `99` stored. -/
theorem dangling_seg_leaves_counters_witness :
    ∃ s2, StartElement (sampleEnv []) (shapeWithTag [] false "name" "Foo") (idReader "99") "seg" =
        .ok s2 ∧ counters s2 = counters (shapeWithTag [] false "name" "Foo") :=
  dangling_seg_leaves_counters (sampleEnv []) (shapeWithTag [] false "name" "Foo") (idReader "99")
    "99" rfl (by decide)

/-! ## Edge scheme -/

/-- C15 as stated fails: two edge records with the same `id` field compare equal whatever
their endpoints are. -/
theorem compare_segment_equal_ids_compare_equal :
    compare_segment (setSlot (setSlot (fun _ => ⟨0, 0, 0⟩) 1 ⟨7, 1, 2⟩) 2 ⟨7, 3, 4⟩) 1 2 = 0 ∧
      (setSlot (setSlot (fun _ => (⟨0, 0, 0⟩ : osmSegment)) 1 ⟨7, 1, 2⟩) 2 ⟨7, 3, 4⟩ 1).from_ ≠
        (setSlot (setSlot (fun _ => (⟨0, 0, 0⟩ : osmSegment)) 1 ⟨7, 1, 2⟩) 2 ⟨7, 3, 4⟩ 2).from_ := by
  decide

/-- C15 as amended: `compare_segment` returns `0` for one and the same record and for two
records with equal `id` fields; for two different records with different `id` fields it
returns `0` if and only if `from` and `to` are pairwise equal (so `(x, y)` and `(y, x)` with
`x ≠ y` never compare equal), and otherwise its sign is that of the lexicographic
comparison of `(from, to)`. -/
theorem compare_segment_is_lexicographic (segments : Nat → osmSegment) (a b : Nat) :
    ((a = b ∨ (segments a).id = (segments b).id) → compare_segment segments a b = 0) ∧
      ((a ≠ b ∧ (segments a).id ≠ (segments b).id) →
        (compare_segment segments a b = 0 ↔
          (segments a).from_ = (segments b).from_ ∧ (segments a).to_ = (segments b).to_) ∧
        (compare_segment segments a b < 0 ↔
          (segments a).from_ < (segments b).from_ ∨
            ((segments a).from_ = (segments b).from_ ∧ (segments a).to_ < (segments b).to_)) ∧
        (0 < compare_segment segments a b ↔
          (segments b).from_ < (segments a).from_ ∨
            ((segments a).from_ = (segments b).from_ ∧ (segments b).to_ < (segments a).to_))) := by
  constructor
  · intro h
    unfold compare_segment
    rcases h with h | h
    · simp [h]
    · by_cases hab : a = b
      · simp [hab]
      · simp [hab, h]
  · rintro ⟨hab, hid⟩
    unfold compare_segment
    simp only [hab, hid, if_false]
    split_ifs <;> simp <;> omega

/-! ## Tag leaf -/

theorem StartElement_tag_eq (env : Env) (s : State env) (reader : Reader) :
    StartElement env s reader "tag" = StartElement_tag env s reader := by
  have h1 : ¬ ("tag" = "node") := by decide
  have h2 : ¬ ("tag" = "segment") := by decide
  simp [StartElement, h1, h2]

theorem replaceFirst_none (c : Char) :
    ∀ k : List Char, replaceFirst c k = none → ∀ x ∈ k, x ≠ c := by
  intro k
  induction k with
  | nil => intro _ x hx; simp at hx
  | cons y ys ih =>
    intro h x hx
    unfold replaceFirst at h
    split at h
    · cases h
    · rename_i hy
      split at h
      · rename_i hnone
        rcases List.mem_cons.1 hx with hx | hx
        · rw [hx]; exact hy
        · exact ih hnone x hx
      · cases h

theorem replaceFirst_some_map (c : Char) (hc : c ≠ '_') :
    ∀ k k2 : List Char, replaceFirst c k = some k2 →
      k2.map (fun x => if x = c then '_' else x) = k.map (fun x => if x = c then '_' else x) := by
  intro k
  induction k with
  | nil => intro k2 h; simp [replaceFirst] at h
  | cons y ys ih =>
    intro k2 h
    unfold replaceFirst at h
    split at h
    · rename_i hy
      cases h
      have h1 : ¬ ('_' = c) := fun e => hc e.symm
      simp [hy, h1]
    · rename_i hy
      split at h
      · cases h
      · rename_i zs hzs
        cases h
        simp [ih zs hzs]

/-- The loop `while ((p = strchr(k, c))) *p = '_';` ends with every `c` turned into `_`
and every other character in place. -/
theorem replaceLoop_eq_map (c : Char) (hc : c ≠ '_') :
    ∀ (n : Nat) (k : List Char), k.count c = n →
      replaceLoop c hc k = k.map (fun x => if x = c then '_' else x) := by
  intro n
  induction n using Nat.strong_induction_on with
  | _ n ih =>
    intro k hk
    rw [replaceLoop]
    split
    · rename_i hnone
      have hno := replaceFirst_none c k hnone
      have hmap : k.map (fun x => if x = c then '_' else x) = k.map id :=
        List.map_congr_left (fun x hx => by simp [hno x hx])
      rw [hmap, List.map_id]
    · rename_i k2 hsome
      have hdec : k2.count c < n := by
        rw [← hk]
        have key : ∀ (l l2 : List Char), replaceFirst c l = some l2 → l2.count c < l.count c := by
          intro l
          induction l with
          | nil => intro l2 h0; simp [replaceFirst] at h0
          | cons x xs ihl =>
            intro l2 h0
            unfold replaceFirst at h0
            split at h0
            · rename_i hx
              cases h0
              have h1 : ('_' == c) = false := by
                simp only [beq_eq_false_iff_ne, ne_eq]
                exact fun e => hc e.symm
              simp [List.count_cons, hx, h1]
            · rename_i hx
              split at h0
              · simp at h0
              · rename_i ys hys
                cases h0
                have := ihl ys hys
                simp only [List.count_cons]
                omega
        exact key k k2 hsome
      rw [ih (k2.count c) hdec k2 rfl]
      exact replaceFirst_some_map c hc k k2 hsome

theorem normalize_two_loops (k : List Char) :
    replaceLoop ' ' (by decide) (replaceLoop ':' (by decide) k) = k.map normalizeChar := by
  rw [replaceLoop_eq_map ':' (by decide) _ k rfl, replaceLoop_eq_map ' ' (by decide) _ _ rfl,
    List.map_map]
  apply List.map_congr_left
  intro x _
  simp only [Function.comp, normalizeChar]
  by_cases h1 : x = ':'
  · simp [h1]
  · by_cases h2 : x = ' '
    · simp [h2]
    · simp [h1, h2]

/-- C16: for every tag key `k` the two replacement loops of the tag leaf end, the event
returns, and the key it links into the tag list has the length of `k`, has `_` at every
position where `k` has `:` or a blank, and the character of `k` at every other position; the
tag is linked whatever the tag list holds already, an entry with the same key and value
included. -/
theorem tag_key_is_normalized (env : Env) (s : State env) (reader : Reader) (xk xv : String)
    (hxk : xmlTextReaderGetAttribute reader "k" = some xk)
    (hxv : xmlTextReaderGetAttribute reader "v" = some xv) :
    ∃ s2 key, StartElement env s reader "tag" = .ok s2 ∧
      s2.tags = ⟨key, xv⟩ :: s.tags ∧
      key.length = xk.length ∧
      ∀ (i : Nat) (c : Char), xk.data[i]? = some c →
        key.data[i]? = some (if c = ':' ∨ c = ' ' then '_' else c) := by
  refine ⟨{ s with tags := ⟨String.mk (xk.data.map normalizeChar), xv⟩ :: s.tags },
    String.mk (xk.data.map normalizeChar), ?_, rfl, ?_, ?_⟩
  · rw [StartElement_tag_eq]
    unfold StartElement_tag
    rw [hxk, hxv]
    show Result.ok { s with tags := (addItem s.tags
      (String.mk (replaceLoop ' ' (by decide) (replaceLoop ':' (by decide) xk.data))) xv false).2 } = _
    rw [normalize_two_loops]
    rfl
  · exact List.length_map _ _
  · intro i c hi
    show (xk.data.map normalizeChar)[i]? = _
    rw [List.getElem?_map, hi]
    rfl

/-- C16 at `<tag k="addr:street name" v="x">` over a tag list that holds the entry already. -/
theorem tag_key_is_normalized_witness :
    ∃ s2 key, StartElement (sampleEnv [])
        { initState (sampleEnv []) ([], []) false with tags := [⟨"addr_street_name", "x"⟩] }
        (tagReader "addr:street name" "x") "tag" = .ok s2 ∧
      s2.tags = ⟨key, "x"⟩ :: [⟨"addr_street_name", "x"⟩] ∧
      key.length = ("addr:street name" : String).length ∧
      ∀ (i : Nat) (c : Char), ("addr:street name" : String).data[i]? = some c →
        key.data[i]? = some (if c = ':' ∨ c = ' ' then '_' else c) :=
  tag_key_is_normalized (sampleEnv [])
    { initState (sampleEnv []) ([], []) false with tags := [⟨"addr_street_name", "x"⟩] }
    (tagReader "addr:street name" "x") "addr:street name" "x" rfl rfl

/-! ## Resets at point end and shape end -/

theorem EndElement_node_eq (env : Env) (s : State env) :
    EndElement env s "node" = EndElement_node env s := by
  simp [EndElement]

/-- C17 as stated fails: in the run of `nestedPoints` the last point end finds no id in the
id/key list, and afterwards the child-reference list still holds the reference captured
before. -/
theorem point_end_without_id_keeps_refs :
    (streamFile (sampleEnv []) nestedPoints (initState (sampleEnv []) ([], []) false)).isOk =
        true ∧
      getItem (streamFile (sampleEnv []) nestedPoints
        (initState (sampleEnv []) ([], []) false)).state.keys "id" = none ∧
      (EndElement (sampleEnv []) (streamFile (sampleEnv []) nestedPoints
        (initState (sampleEnv []) ([], []) false)).state "node").isOk = true ∧
      (EndElement (sampleEnv []) (streamFile (sampleEnv []) nestedPoints
        (initState (sampleEnv []) ([], []) false)).state "node").state.segs = [⟨"id", "1"⟩] := by
  decide

/-- C17 as amended: when point end runs with no id captured in the id/key list, it returns,
the record is dropped without a row, and afterwards the id/key list and the tag list are
empty; the child-reference list is as it was. -/
theorem point_end_without_id_resets_keys_and_tags (env : Env) (s : State env)
    (hid : getItem s.keys "id" = none) :
    ∃ s2, EndElement env s "node" = .ok s2 ∧ s2.out = s.out ∧ s2.keys = [] ∧ s2.tags = [] ∧
      s2.segs = s.segs := by
  rw [EndElement_node_eq]
  unfold EndElement_node
  rw [hid]
  exact ⟨_, rfl, rfl, resetList_eq_nil _, resetList_eq_nil _, rfl⟩

/-- C17 as amended, at a point end with a tag and a child reference but no id captured. -/
theorem point_end_without_id_resets_keys_and_tags_witness :
    ∃ s2, EndElement (sampleEnv [])
        { initState (sampleEnv []) ([], []) false with
          tags := [⟨"name", "Foo"⟩], segs := [⟨"id", "1"⟩] } "node" = .ok s2 ∧
      s2.out = [] ∧ s2.keys = [] ∧ s2.tags = [] ∧ s2.segs = [⟨"id", "1"⟩] :=
  point_end_without_id_resets_keys_and_tags (sampleEnv [])
    { initState (sampleEnv []) ([], []) false with
      tags := [⟨"name", "Foo"⟩], segs := [⟨"id", "1"⟩] } rfl

/-- With duplicate suppression disabled the loop over the produced geometries has no
assertion to fail. -/
theorem wayLoop_ok_of_off (env : Env) (id : Nat) (names osm_id values : String) :
    ∀ (n i : Nat) (s : State env), s.suppress_dupes = false →
      ∃ s2, wayLoop env id names osm_id values n i s = .ok s2 := by
  intro n
  induction n with
  | zero => intro i s _; exact ⟨s, rfl⟩
  | succ n ih =>
    intro i s hoff
    unfold wayLoop
    simp only [hoff, Bool.false_eq_true, if_false]
    split
    · exact ih _ _ rfl
    · exact ih _ _ rfl

/-- What a shape end that returns leaves: the three lists empty, the stores and their
tables untouched. -/
theorem EndElement_way_ok (env : Env) (s s2 : State env) (h : EndElement_way env s = .ok s2) :
    s2.keys = [] ∧ s2.tags = [] ∧ s2.segs = [] ∧ s2.nodes = s.nodes ∧
      s2.node_positions = s.node_positions ∧ s2.segments = s.segments ∧
      s2.segment_unique = s.segment_unique := by
  have hreset : ∀ t : State env, (resetAll t).keys = [] ∧ (resetAll t).tags = [] ∧
      (resetAll t).segs = [] ∧ (resetAll t).nodes = t.nodes ∧
      (resetAll t).node_positions = t.node_positions ∧ (resetAll t).segments = t.segments ∧
      (resetAll t).segment_unique = t.segment_unique := by
    intro t
    exact ⟨resetList_eq_nil _, resetList_eq_nil _, resetList_eq_nil _, rfl, rfl, rfl, rfl⟩
  unfold EndElement_way at h
  split at h
  · cases h; exact hreset s
  · rename_i osm_id _
    simp only at h
    split at h
    · cases h; exact hreset s
    · split at h
      · rename_i values _
        obtain ⟨segs, g, c, hW, _⟩ := WKT_loop_frame env s.segs s
        unfold WKT at h
        cases hL : WKT_loop env s.segs s with
        | fault f s1 =>
          rw [hL] at h
          simp only at h
          cases h
        | ok s1 =>
          rw [hL] at hW h
          simp only [Result.state] at hW
          simp only at h
          have f1 : s1.nodes = s.nodes ∧ s1.node_positions = s.node_positions ∧
              s1.segments = s.segments ∧ s1.segment_unique = s.segment_unique := by
            rw [hW]
            exact ⟨rfl, rfl, rfl, rfl⟩
          generalize (exportLoop s.tags exportTags (none, none, 0)).2.2 = flag at h
          generalize (exportLoop s.tags exportTags (none, none, 0)).1.getD "(null)" = names at h
          by_cases hsz : (env.build_geometry s1.geom flag).2 = 0
          · simp only [hsz, ne_eq, not_true_eq_false, if_false] at h
            cases h
            exact ⟨resetList_eq_nil _, resetList_eq_nil _, resetList_eq_nil _, f1.1, f1.2.1,
              f1.2.2.1, f1.2.2.2⟩
          · simp only [hsz, ne_eq, not_false_eq_true, if_true] at h
            obtain ⟨wt, rows, cw, cd, c2, hY, _, _⟩ :=
              wayLoop_frame env (strtoulUInt osm_id) names osm_id values
                (env.build_geometry s1.geom flag).2 0
                { s1 with
                  geom := (env.build_geometry s1.geom flag).1
                  calls := s1.calls ++ [.build_geometry flag] }
            cases hR : wayLoop env (strtoulUInt osm_id) names osm_id values
                (env.build_geometry s1.geom flag).2 0
                { s1 with
                  geom := (env.build_geometry s1.geom flag).1
                  calls := s1.calls ++ [.build_geometry flag] } with
            | fault f s3 =>
              rw [hR] at h
              simp only at h
              cases h
            | ok s3 =>
              rw [hR] at h hY
              simp only [Result.state] at hY
              simp only at h
              cases h
              have f3 : s3.nodes = s1.nodes ∧ s3.node_positions = s1.node_positions ∧
                  s3.segments = s1.segments ∧ s3.segment_unique = s1.segment_unique := by
                rw [hY]
                exact ⟨rfl, rfl, rfl, rfl⟩
              exact ⟨resetList_eq_nil _, resetList_eq_nil _, resetList_eq_nil _,
                f3.1.trans f1.1, f3.2.1.trans f1.2.1, f3.2.2.1.trans f1.2.2.1,
                f3.2.2.2.trans f1.2.2.2⟩
      · cases h; exact hreset s

/-- C18: whenever shape end returns, along whichever path (id missing, no child reference,
empty attribute tuple, no geometry produced, or rows written), the id/key list, the tag list
and the child-reference list are all empty afterwards; and it does return when the id is
missing, when no child reference is captured, when the attribute tuple is empty, and when
every reference is in range and duplicate suppression is disabled. -/
theorem shape_end_resets_all_lists (env : Env) (s : State env) :
    (∀ s2, EndElement env s "way" = .ok s2 → s2.keys = [] ∧ s2.tags = [] ∧ s2.segs = []) ∧
      ((getItem s.keys "id" = none ∨ s.segs = [] ∨
          (¬ ∃ t ∈ exportTags, ∃ kv ∈ s.tags, kv.key = t.name) ∨
          (s.suppress_dupes = false ∧
            ∀ p ∈ s.segs, strtoulUInt p.value ≤ MAX_ID_SEGMENT ∧
              (s.segments (strtoulUInt p.value)).from_ ≤ MAX_ID_NODE ∧
              (s.segments (strtoulUInt p.value)).to_ ≤ MAX_ID_NODE)) →
        ∃ s2, EndElement env s "way" = .ok s2) := by
  rw [EndElement_way_eq]
  constructor
  · intro s2 h
    obtain ⟨h1, h2, h3, _⟩ := EndElement_way_ok env s s2 h
    exact ⟨h1, h2, h3⟩
  · intro hcases
    unfold EndElement_way
    cases hid : getItem s.keys "id" with
    | none => exact ⟨_, rfl⟩
    | some osm_id =>
      simp only
      by_cases hdata : listHasData s.segs = true
      · simp only [hdata, not_true_eq_false, if_false]
        rw [exportLoop_spec]
        simp only
        cases hv : commaText ((exportedColumns s.tags).map (columnValue s.tags)) with
        | none => exact ⟨_, rfl⟩
        | some values =>
          simp only
          have hne : exportedColumns s.tags ≠ [] := by
            intro h0
            rw [h0] at hv
            simp [commaText] at hv
          obtain ⟨hoff, hsafe⟩ : s.suppress_dupes = false ∧
              ∀ p ∈ s.segs, strtoulUInt p.value ≤ MAX_ID_SEGMENT ∧
                (s.segments (strtoulUInt p.value)).from_ ≤ MAX_ID_NODE ∧
                (s.segments (strtoulUInt p.value)).to_ ≤ MAX_ID_NODE := by
            rcases hcases with h | h | h | h
            · rw [hid] at h; cases h
            · rw [h] at hdata; simp [listHasData] at hdata
            · exact absurd ((exportedColumns_eq_nil s.tags).2 h) hne
            · exact h
          obtain ⟨s1, hL⟩ := WKT_loop_ok env s.segs s hsafe
          obtain ⟨segs, g, c, hW, _⟩ := WKT_loop_frame env s.segs s
          rw [hL] at hW
          simp only [Result.state] at hW
          unfold WKT
          rw [hL]
          simp only
          generalize (exportedColumns s.tags).foldl (fun a t => a ||| t.polygon) 0 = flag
          generalize (commaText ((exportedColumns s.tags).map quoteName)).getD "(null)" = names
          by_cases hsz : (env.build_geometry s1.geom flag).2 = 0
          · simp only [hsz, ne_eq, not_true_eq_false, if_false]
            exact ⟨_, rfl⟩
          · simp only [hsz, ne_eq, not_false_eq_true, if_true]
            obtain ⟨s3, hR⟩ := wayLoop_ok_of_off env (strtoulUInt osm_id) names osm_id values
              (env.build_geometry s1.geom flag).2 0
              { s1 with
                geom := (env.build_geometry s1.geom flag).1
                calls := s1.calls ++ [.build_geometry flag] }
              (by rw [hW]; exact hoff)
            rw [hR]
            exact ⟨_, rfl⟩
      · simp only [hdata, not_false_eq_true, if_true]
        exact ⟨_, rfl⟩

/-! ## The invariant of the stores -/

/-- Writing a non-zero `id` that names the written slot or a populated one keeps the
canonical slots populated. -/
theorem canon_update (idOf : Nat → Nat) (k c : Nat) (hc : c ≠ 0) (hck : c = k ∨ idOf c ≠ 0)
    (h : ∀ j, idOf j ≠ 0 → idOf (idOf j) ≠ 0) (j : Nat)
    (hj : (if j = k then c else idOf j) ≠ 0) :
    (if (if j = k then c else idOf j) = k then c
      else idOf (if j = k then c else idOf j)) ≠ 0 := by
  by_cases hjk : j = k
  · simp only [hjk, if_true] at hj ⊢
    by_cases hcK : c = k
    · simp only [hcK, if_true]; rw [← hcK]; exact hc
    · simp only [hcK, if_false]
      rcases hck with h1 | h1
      · exact absurd h1 hcK
      · exact h1
  · simp only [hjk, if_false] at hj ⊢
    by_cases he : idOf j = k
    · simp only [he, if_true]; exact hc
    · simp only [he, if_false]; exact h j hj

theorem StoreInv.init (env : Env) (g : env.Geom) (sd : Bool) : StoreInv (initState env g sd) where
  nodeIdLt := by intro j; simp [initState, MAX_ID_NODE]
  nodeCanon := by intro j h; simp [initState] at h
  nodeTable := by intro m hm; simp [initState] at hm
  segIdLt := by intro i; simp [initState, MAX_ID_SEGMENT]
  segCanon := by intro i h; simp [initState] at h
  segTable := by intro m hm; simp [initState] at hm
  segEnds := by intro i h; simp [initState] at h
  segsRef := by intro kv hkv; simp [initState] at hkv
  segsNodup := by simp [initState]

/-- The invariant looks at the two stores, the two tables and `segs` only. -/
theorem StoreInv.of_same {env : Env} {s s2 : State env} (hinv : StoreInv s)
    (h1 : s2.nodes = s.nodes) (h2 : s2.node_positions = s.node_positions)
    (h3 : s2.segments = s.segments) (h4 : s2.segment_unique = s.segment_unique)
    (h5 : s2.segs = s.segs) : StoreInv s2 where
  nodeIdLt := by rw [h1]; exact hinv.nodeIdLt
  nodeCanon := by rw [h1]; exact hinv.nodeCanon
  nodeTable := by rw [h1, h2]; exact hinv.nodeTable
  segIdLt := by rw [h3]; exact hinv.segIdLt
  segCanon := by rw [h3]; exact hinv.segCanon
  segTable := by rw [h3, h4]; exact hinv.segTable
  segEnds := by rw [h1, h3]; exact hinv.segEnds
  segsRef := by rw [h3, h5]; exact hinv.segsRef
  segsNodup := by rw [h5]; exact hinv.segsNodup

/-- Emptying `segs` keeps the invariant. -/
theorem StoreInv.of_reset {env : Env} {s s2 : State env} (hinv : StoreInv s)
    (h1 : s2.nodes = s.nodes) (h2 : s2.node_positions = s.node_positions)
    (h3 : s2.segments = s.segments) (h4 : s2.segment_unique = s.segment_unique)
    (h5 : s2.segs = []) : StoreInv s2 where
  nodeIdLt := by rw [h1]; exact hinv.nodeIdLt
  nodeCanon := by rw [h1]; exact hinv.nodeCanon
  nodeTable := by rw [h1, h2]; exact hinv.nodeTable
  segIdLt := by rw [h3]; exact hinv.segIdLt
  segCanon := by rw [h3]; exact hinv.segCanon
  segTable := by rw [h3, h4]; exact hinv.segTable
  segEnds := by rw [h1, h3]; exact hinv.segEnds
  segsRef := by rw [h5]; intro kv hkv; simp at hkv
  segsNodup := by rw [h5]; simp

/-- A write to a point slot of a non-zero `id` below the bound that names the slot itself or
a populated slot keeps the invariant. -/
theorem StoreInv.of_setNode {env : Env} {s s2 : State env} (hinv : StoreInv s)
    (k : Nat) (v : osmNode)
    (h1 : s2.nodes = setSlot s.nodes k v)
    (h2 : ∀ m ∈ s2.node_positions, m ∈ s.node_positions ∨ m = k)
    (h3 : s2.segments = s.segments) (h4 : s2.segment_unique = s.segment_unique)
    (h5 : s2.segs = s.segs)
    (hv0 : v.id ≠ 0) (hvlt : v.id < MAX_ID_NODE) (hvk : v.id = k ∨ (s.nodes v.id).id ≠ 0) :
    StoreInv s2 := by
  have hid : ∀ j, (s2.nodes j).id = if j = k then v.id else (s.nodes j).id := by
    intro j
    rw [h1]
    unfold setSlot
    split <;> rfl
  have hmono : ∀ j, (s.nodes j).id ≠ 0 → (s2.nodes j).id ≠ 0 := by
    intro j hj
    rw [hid]
    split
    · exact hv0
    · exact hj
  constructor
  · intro j
    rw [hid]
    split
    · exact hvlt
    · exact hinv.nodeIdLt j
  · intro j hj
    rw [hid] at hj
    have := canon_update (fun j => (s.nodes j).id) k v.id hv0 hvk hinv.nodeCanon j hj
    rw [hid, hid]
    exact this
  · intro m hm
    rcases h2 m hm with h | h
    · exact hmono m (hinv.nodeTable m h)
    · rw [hid, if_pos h]; exact hv0
  · rw [h3]; exact hinv.segIdLt
  · rw [h3]; exact hinv.segCanon
  · rw [h3, h4]; exact hinv.segTable
  · intro i hi
    rw [h3] at hi ⊢
    obtain ⟨a, b, c, d, e⟩ := hinv.segEnds i hi
    exact ⟨a, b, hmono _ c, d, hmono _ e⟩
  · rw [h3, h5]; exact hinv.segsRef
  · rw [h5]; exact hinv.segsNodup

/-- A write to an edge slot of a non-zero `id` below the bound that names the slot itself or
a populated slot, with two different populated endpoints, keeps the invariant. -/
theorem StoreInv.of_setSegment {env : Env} {s s2 : State env} (hinv : StoreInv s)
    (k : Nat) (v : osmSegment)
    (h1 : s2.nodes = s.nodes) (h2 : s2.node_positions = s.node_positions)
    (h3 : s2.segments = setSlot s.segments k v)
    (h4 : ∀ m ∈ s2.segment_unique, m ∈ s.segment_unique ∨ m = k)
    (h5 : s2.segs = s.segs)
    (hv0 : v.id ≠ 0) (hvlt : v.id < MAX_ID_SEGMENT) (hvk : v.id = k ∨ (s.segments v.id).id ≠ 0)
    (hends : v.from_ ≠ v.to_ ∧ v.from_ < MAX_ID_NODE ∧ (s.nodes v.from_).id ≠ 0 ∧
      v.to_ < MAX_ID_NODE ∧ (s.nodes v.to_).id ≠ 0) :
    StoreInv s2 := by
  have hid : ∀ j, (s2.segments j).id = if j = k then v.id else (s.segments j).id := by
    intro j
    rw [h3]
    unfold setSlot
    split <;> rfl
  have hmono : ∀ j, (s.segments j).id ≠ 0 → (s2.segments j).id ≠ 0 := by
    intro j hj
    rw [hid]
    split
    · exact hv0
    · exact hj
  constructor
  · rw [h1]; exact hinv.nodeIdLt
  · rw [h1]; exact hinv.nodeCanon
  · rw [h1, h2]; exact hinv.nodeTable
  · intro j
    rw [hid]
    split
    · exact hvlt
    · exact hinv.segIdLt j
  · intro j hj
    rw [hid] at hj
    have := canon_update (fun j => (s.segments j).id) k v.id hv0 hvk hinv.segCanon j hj
    rw [hid, hid]
    exact this
  · intro m hm
    rcases h4 m hm with h | h
    · exact hmono m (hinv.segTable m h)
    · rw [hid, if_pos h]; exact hv0
  · intro i hi
    rw [h1]
    by_cases hik : i = k
    · have hs : s2.segments i = v := by rw [h3, hik]; exact setSlot_same _ _ _
      rw [hs]
      exact hends
    · have hs : s2.segments i = s.segments i := by rw [h3]; exact setSlot_other _ _ _ _ hik
      rw [hs] at hi ⊢
      exact hinv.segEnds i hi
  · intro kv hkv
    rw [h5] at hkv
    obtain ⟨a, c, hc1, hc2, hc3⟩ := hinv.segsRef kv hkv
    exact ⟨a, c, hc1, hc2, hmono c hc3⟩
  · rw [h5]; exact hinv.segsNodup

theorem setSlot_setSlot {α : Type} (a : Nat → α) (i : Nat) (v w : α) :
    setSlot (setSlot a i v) i w = setSlot a i w := by
  funext j
  unfold setSlot
  split <;> rfl

/-- The table after a probe holds the old members and at most the probed item. -/
theorem insert_or_find_members {α : Type} (compare : α → α → Int) (table : List α) (item : α) :
    ∀ m ∈ (insert_or_find compare table item).2, m ∈ table ∨ m = item := by
  intro m hm
  unfold insert_or_find at hm
  split at hm
  · exact Or.inl hm
  · simpa using hm

theorem StartElement_node_storeInv (env : Env) (s s2 : State env) (reader : Reader)
    (hinv : StoreInv s) (h : StartElement_node env s reader = .ok s2) : StoreInv s2 := by
  unfold StartElement_node at h
  split at h
  · rename_i xid xlon xlat _ _ _
    simp only at h
    split at h
    · cases h
    · rename_i hvalid
      have hid0 : strtoulUInt xid ≠ 0 := by
        intro h0; apply hvalid; rw [h0]; simp
      have hidlt : strtoulUInt xid < MAX_ID_NODE := by
        by_contra hlt; apply hvalid; intro hc; exact hlt hc.2
      have hmembers : ∀ m ∈ (if s.suppress_dupes = true then
            insert_or_find (compare_node (setSlot s.nodes (strtoulUInt xid)
              ⟨strtoulUInt xid, env.strtod xlon, env.strtod xlat⟩)) s.node_positions
              (strtoulUInt xid)
          else (none, s.node_positions)).2, m ∈ s.node_positions ∨ m = strtoulUInt xid := by
        intro m hm
        split at hm
        · exact insert_or_find_members _ _ _ m hm
        · exact Or.inl hm
      split at h
      · cases h
        exact hinv.of_setNode (strtoulUInt xid) ⟨strtoulUInt xid, env.strtod xlon, env.strtod xlat⟩
          rfl hmembers rfl rfl rfl hid0 hidlt (Or.inl rfl)
      · rename_i dupe hp
        cases h
        have hsd : s.suppress_dupes = true := by
          by_contra hsd
          simp only [hsd, if_false] at hp
          cases hp
        simp only [hsd, if_true] at hp
        obtain ⟨hmem, _, _⟩ := insert_or_find_some _ _ _ _ hp
        refine hinv.of_setNode (strtoulUInt xid) _ (setSlot_setSlot _ _ _ _) hmembers rfl rfl rfl
          ?_ ?_ ?_
        · by_cases hd : dupe = strtoulUInt xid
          · rw [hd, setSlot_same]; exact hid0
          · rw [setSlot_other _ _ _ _ hd]; exact hinv.nodeTable dupe hmem
        · by_cases hd : dupe = strtoulUInt xid
          · rw [hd, setSlot_same]; exact hidlt
          · rw [setSlot_other _ _ _ _ hd]; exact hinv.nodeIdLt dupe
        · by_cases hd : dupe = strtoulUInt xid
          · left; rw [hd, setSlot_same]
          · right
            rw [setSlot_other _ _ _ _ hd]
            exact hinv.nodeCanon dupe (hinv.nodeTable dupe hmem)
  · cases h

theorem StartElement_segment_storeInv (env : Env) (s s2 : State env) (reader : Reader)
    (hinv : StoreInv s) (h : StartElement_segment env s reader = .ok s2) : StoreInv s2 := by
  unfold StartElement_segment at h
  split at h
  · rename_i xid xfrom xto _ _ _
    simp only at h
    split at h
    · cases h
    · rename_i hvalid
      have hid0 : strtoulUInt xid ≠ 0 := by
        intro h0; apply hvalid; rw [h0]; simp
      have hidlt : strtoulUInt xid < MAX_ID_SEGMENT := by
        by_contra hlt; apply hvalid; intro hc; exact hlt hc.2
      split at h
      · cases h
      · split at h
        · cases h; exact hinv.of_same rfl rfl rfl rfl rfl
        · rename_i hto
          split at h
          · cases h
          · split at h
            · cases h; exact hinv.of_same rfl rfl rfl rfl rfl
            · rename_i hfrom
              split at h
              · rename_i hdiff
                have hends : (s.nodes (strtoulUInt xfrom)).id ≠ (s.nodes (strtoulUInt xto)).id ∧
                    (s.nodes (strtoulUInt xfrom)).id < MAX_ID_NODE ∧
                    (s.nodes (s.nodes (strtoulUInt xfrom)).id).id ≠ 0 ∧
                    (s.nodes (strtoulUInt xto)).id < MAX_ID_NODE ∧
                    (s.nodes (s.nodes (strtoulUInt xto)).id).id ≠ 0 :=
                  ⟨hdiff, hinv.nodeIdLt _, hinv.nodeCanon _ hfrom, hinv.nodeIdLt _,
                    hinv.nodeCanon _ hto⟩
                have hmembers : ∀ m ∈ (if s.suppress_dupes = true then
                      insert_or_find (compare_segment (setSlot s.segments (strtoulUInt xid)
                        ⟨strtoulUInt xid, (s.nodes (strtoulUInt xfrom)).id,
                          (s.nodes (strtoulUInt xto)).id⟩)) s.segment_unique (strtoulUInt xid)
                    else (none, s.segment_unique)).2,
                    m ∈ s.segment_unique ∨ m = strtoulUInt xid := by
                  intro m hm
                  split at hm
                  · exact insert_or_find_members _ _ _ m hm
                  · exact Or.inl hm
                split at h
                · cases h
                  exact hinv.of_setSegment (strtoulUInt xid)
                    ⟨strtoulUInt xid, (s.nodes (strtoulUInt xfrom)).id,
                      (s.nodes (strtoulUInt xto)).id⟩
                    rfl rfl rfl hmembers rfl hid0 hidlt (Or.inl rfl) hends
                · rename_i dupe hp
                  cases h
                  have hsd : s.suppress_dupes = true := by
                    by_contra hsd
                    simp only [hsd, if_false] at hp
                    cases hp
                  simp only [hsd, if_true] at hp
                  obtain ⟨hmem, _, _⟩ := insert_or_find_some _ _ _ _ hp
                  refine hinv.of_setSegment (strtoulUInt xid) _ rfl rfl (setSlot_setSlot _ _ _ _)
                    hmembers rfl ?_ ?_ ?_ hends
                  · by_cases hd : dupe = strtoulUInt xid
                    · rw [hd, setSlot_same]; exact hid0
                    · rw [setSlot_other _ _ _ _ hd]; exact hinv.segTable dupe hmem
                  · by_cases hd : dupe = strtoulUInt xid
                    · rw [hd, setSlot_same]; exact hidlt
                    · rw [setSlot_other _ _ _ _ hd]; exact hinv.segIdLt dupe
                  · by_cases hd : dupe = strtoulUInt xid
                    · left; rw [hd, setSlot_same]
                    · right
                      rw [setSlot_other _ _ _ _ hd]
                      exact hinv.segCanon dupe (hinv.segTable dupe hmem)
              · cases h; exact hinv.of_same rfl rfl rfl rfl rfl
  · cases h

theorem addItemScan_false (name value : String) :
    ∀ l : List keyval, addItemScan l name value = false →
      ∀ item ∈ l, ¬ (item.value = value ∧ item.key = name) := by
  intro l
  induction l with
  | nil => intro _ item hi; simp at hi
  | cons x xs ih =>
    intro h item hi
    unfold addItemScan at h
    split at h
    · cases h
    · rename_i hx
      rcases List.mem_cons.1 hi with hi | hi
      · rw [hi]
        intro hc
        exact hx ⟨(strcmp_eq_zero _ _).2 hc.1, (strcmp_eq_zero _ _).2 hc.2⟩
      · exact ih h item hi

theorem addItemScan_true (name value : String) :
    ∀ l : List keyval, addItemScan l name value = true →
      ∃ item ∈ l, item.value = value ∧ item.key = name := by
  intro l
  induction l with
  | nil => intro h; simp [addItemScan] at h
  | cons x xs ih =>
    intro h
    unfold addItemScan at h
    split at h
    · rename_i hx
      exact ⟨x, List.mem_cons_self _ _, (strcmp_eq_zero _ _).1 hx.1, (strcmp_eq_zero _ _).1 hx.2⟩
    · obtain ⟨item, hi, hv⟩ := ih h
      exact ⟨item, List.mem_cons_of_mem _ hi, hv⟩

/-- A change of `segs` alone keeps the invariant when the new list meets its two clauses. -/
theorem StoreInv.of_segs {env : Env} {s s2 : State env} (hinv : StoreInv s)
    (h1 : s2.nodes = s.nodes) (h2 : s2.node_positions = s.node_positions)
    (h3 : s2.segments = s.segments) (h4 : s2.segment_unique = s.segment_unique)
    (href : ∀ kv ∈ s2.segs, kv.key = "id" ∧
      ∃ c, kv.value = fmt_d c ∧ c < MAX_ID_SEGMENT ∧ (s.segments c).id ≠ 0)
    (hnodup : (s2.segs.map keyval.value).Nodup) : StoreInv s2 where
  nodeIdLt := by rw [h1]; exact hinv.nodeIdLt
  nodeCanon := by rw [h1]; exact hinv.nodeCanon
  nodeTable := by rw [h1, h2]; exact hinv.nodeTable
  segIdLt := by rw [h3]; exact hinv.segIdLt
  segCanon := by rw [h3]; exact hinv.segCanon
  segTable := by rw [h3, h4]; exact hinv.segTable
  segEnds := by rw [h1, h3]; exact hinv.segEnds
  segsRef := by rw [h3]; exact href
  segsNodup := hnodup

theorem StartElement_seg_storeInv (env : Env) (s s2 : State env) (reader : Reader)
    (hinv : StoreInv s) (h : StartElement_seg env s reader = .ok s2) : StoreInv s2 := by
  unfold StartElement_seg at h
  split at h
  · rename_i xid _
    simp only at h
    split at h
    · cases h; exact hinv
    · split at h
      · cases h; exact hinv
      · rename_i hpop
        by_cases hscan : addItemScan s.segs "id" (fmt_d (s.segments (strtoulUInt xid)).id) = true
        · have hadd : addItem s.segs "id" (fmt_d (s.segments (strtoulUInt xid)).id) true =
              (1, s.segs) := by simp [addItem, hscan]
          rw [hadd] at h
          simp only [ne_eq, one_ne_zero, not_false_eq_true, if_true] at h
          cases h
          exact hinv.of_same rfl rfl rfl rfl rfl
        · have hadd : addItem s.segs "id" (fmt_d (s.segments (strtoulUInt xid)).id) true =
              (0, ⟨"id", fmt_d (s.segments (strtoulUInt xid)).id⟩ :: s.segs) := by
            simp [addItem, hscan]
          rw [hadd] at h
          simp only [ne_eq, not_true_eq_false, if_false] at h
          cases h
          have hfalse : addItemScan s.segs "id" (fmt_d (s.segments (strtoulUInt xid)).id) =
              false := by simpa using hscan
          refine hinv.of_segs rfl rfl rfl rfl ?_ ?_
          · intro kv hkv
            rcases List.mem_cons.1 hkv with hkv | hkv
            · rw [hkv]
              exact ⟨rfl, _, rfl, hinv.segIdLt _, hinv.segCanon _ hpop⟩
            · exact hinv.segsRef kv hkv
          · show ((⟨"id", fmt_d (s.segments (strtoulUInt xid)).id⟩ :: s.segs).map
              keyval.value).Nodup
            rw [List.map_cons, List.nodup_cons]
            refine ⟨?_, hinv.segsNodup⟩
            intro hmem
            obtain ⟨item, hi, hv⟩ := List.mem_map.1 hmem
            exact addItemScan_false _ _ s.segs hfalse item hi ⟨hv, (hinv.segsRef item hi).1⟩
  · cases h

theorem EndElement_node_stores (env : Env) (s : State env) :
    (EndElement_node env s).state.nodes = s.nodes ∧
      (EndElement_node env s).state.node_positions = s.node_positions ∧
      (EndElement_node env s).state.segments = s.segments ∧
      (EndElement_node env s).state.segment_unique = s.segment_unique ∧
      (EndElement_node env s).state.segs = s.segs := by
  unfold EndElement_node
  split
  · exact ⟨rfl, rfl, rfl, rfl, rfl⟩
  · simp only
    split
    · exact ⟨rfl, rfl, rfl, rfl, rfl⟩
    · split
      · exact ⟨rfl, rfl, rfl, rfl, rfl⟩
      · split <;> exact ⟨rfl, rfl, rfl, rfl, rfl⟩

/-- Every event that returns keeps the invariant of the stores. -/
theorem processNode_storeInv (env : Env) (s s2 : State env) (e : Event)
    (hinv : StoreInv s) (h : processNode env s e = .ok s2) : StoreInv s2 := by
  cases e with
  | start reader name =>
    simp only [processNode, StartElement] at h
    split at h
    · exact StartElement_node_storeInv env s s2 reader hinv h
    · split at h
      · exact StartElement_segment_storeInv env s s2 reader hinv h
      · split at h
        · unfold StartElement_tag at h
          split at h
          · cases h; exact hinv.of_same rfl rfl rfl rfl rfl
          · cases h
        · split at h
          · unfold StartElement_way at h
            split at h
            · cases h; exact hinv.of_same rfl rfl rfl rfl rfl
            · cases h
          · split at h
            · exact StartElement_seg_storeInv env s s2 reader hinv h
            · cases h; exact hinv
  | stop name =>
    simp only [processNode, EndElement] at h
    split at h
    · have h2 := EndElement_node_stores env s
      rw [h] at h2
      exact hinv.of_same h2.1 h2.2.1 h2.2.2.1 h2.2.2.2.1 h2.2.2.2.2
    · split at h
      · cases h; exact hinv.of_same rfl rfl rfl rfl rfl
      · split at h
        · cases h; exact hinv
        · split at h
          · obtain ⟨_, _, h3, h4, h5, h6, h7⟩ := EndElement_way_ok env s s2 h
            exact hinv.of_reset h4 h5 h6 h7 h3
          · cases h; exact hinv

theorem reachable_storeInv (env : Env) (g : env.Geom) (sd : Bool) (s : State env)
    (h : Reachable env g sd s) : StoreInv s := by
  induction h with
  | init => exact StoreInv.init env g sd
  | step s s2 e _ hstep ih => exact processNode_storeInv env s s2 e ih hstep

/-! ## The text of a reference and its value -/

theorem digitChar_isDigit (m : Nat) (h : m < 10) :
    (Nat.digitChar m).isDigit = true ∧ (Nat.digitChar m).toNat - 48 = m := by
  interval_cases m <;> decide

theorem isDigit_not_space (c : Char) (h : c.isDigit = true) :
    isspace c = false ∧ c ≠ '-' ∧ c ≠ '+' := by
  refine ⟨?_, ?_, ?_⟩
  · cases hs : isspace c with
    | false => rfl
    | true =>
      exfalso
      simp only [isspace, Bool.or_eq_true, beq_iff_eq] at hs
      rcases hs with ((((hs | hs) | hs) | hs) | hs) | hs <;> (rw [hs] at h; revert h; decide)
  · intro hc; rw [hc] at h; revert h; decide
  · intro hc; rw [hc] at h; revert h; decide

/-- The digits `toDigitsCore` puts before its accumulator read back as the number. -/
theorem toDigitsCore_value :
    ∀ (fuel n : Nat) (ds : List Char), n < fuel →
      ∃ d0 pre, Nat.toDigitsCore 10 fuel n ds = d0 :: pre ++ ds ∧ d0.isDigit = true ∧
        ∀ rest, digitsValue (d0 :: pre ++ rest) 0 = digitsValue rest n := by
  intro fuel
  induction fuel with
  | zero => intro n ds h; omega
  | succ fuel ih =>
    intro n ds h
    have hd := digitChar_isDigit (n % 10) (Nat.mod_lt _ (by decide))
    unfold Nat.toDigitsCore
    simp only
    by_cases h0 : n / 10 = 0
    · simp only [h0, if_true]
      refine ⟨Nat.digitChar (n % 10), [], rfl, hd.1, ?_⟩
      intro rest
      have hn : n % 10 = n := Nat.mod_eq_of_lt (by omega)
      have hd2 := hd
      rw [hn] at hd2
      simp only [List.nil_append, digitsValue, hn, hd2.1, if_true, hd2.2, Nat.zero_mul,
        Nat.zero_add]
      rfl
    · simp only [h0, if_false]
      obtain ⟨d0, pre, hpre, hd0, hval⟩ := ih (n / 10) (Nat.digitChar (n % 10) :: ds) (by omega)
      refine ⟨d0, pre ++ [Nat.digitChar (n % 10)], ?_, hd0, ?_⟩
      · rw [hpre]; simp
      · intro rest
        have h1 : d0 :: (pre ++ [Nat.digitChar (n % 10)]) ++ rest =
            d0 :: pre ++ (Nat.digitChar (n % 10) :: rest) := by simp
        rw [h1, hval]
        simp only [digitsValue, hd.1, if_true, hd.2]
        have : n / 10 * 10 + n % 10 = n := by omega
        rw [this]

/-- `strtoul` reads the `%d` text of an identifier below `2 ^ 31` back as that identifier. -/
theorem strtoulUInt_fmt_d (c : Nat) (h : c < 2 ^ 31) : strtoulUInt (fmt_d c) = c := by
  obtain ⟨d0, pre, hpre, hd0, hval⟩ := toDigitsCore_value (c + 1) c [] (by omega)
  have hdata : (fmt_d c).data = d0 :: pre := by
    unfold fmt_d
    rw [if_pos h]
    show Nat.toDigitsCore 10 (c + 1) c [] = _
    rw [hpre]; simp
  obtain ⟨hs, hm, hp⟩ := isDigit_not_space d0 hd0
  have hv : digitsValue (d0 :: pre) 0 = c := by
    have := hval []
    simpa [digitsValue] using this
  unfold strtoulUInt strtoul
  rw [hdata]
  have hdrop : (d0 :: pre).dropWhile isspace = d0 :: pre := by
    simp [List.dropWhile, hs]
  simp only [hdrop, List.head?_cons, List.tail_cons]
  have h1 : (some d0 == some '-') = false := by simpa using hm
  have h2 : (some d0 == some '+') = false := by simpa using hp
  simp only [h1, h2, Bool.or_self, Bool.false_eq_true, if_false, hv]
  have h3 : ¬ c > ULONG_MAX := by unfold ULONG_MAX; omega
  simp only [h3, if_false]
  unfold UINT_MOD
  omega

/-! ## Reachable states -/

theorem edgeStored_reachable : Reachable (sampleEnv []) ([], []) true edgeStored :=
  Reachable.step twoPoints edgeStored (.start (segmentReader "1" "1" "2") "segment")
    twoPoints_reachable rfl

theorem shapeOpen_reachable : Reachable (sampleEnv []) ([], []) true shapeOpen :=
  Reachable.step edgeStored shapeOpen (.start (idReader "5") "way") edgeStored_reachable rfl

theorem refCaptured_reachable : Reachable (sampleEnv []) ([], []) true refCaptured :=
  Reachable.step shapeOpen refCaptured (.start (idReader "1") "seg") shapeOpen_reachable rfl

/-- C19: in every state reachable from the initial stores by events that do not fail, every
populated edge slot has `from ≠ to`, and its `from` and its `to` are both indices within the
point store of populated point slots. -/
theorem reachable_edges_join_two_populated_points (env : Env) (g : env.Geom) (sd : Bool)
    (s : State env) (hreach : Reachable env g sd s) (i : Nat)
    (hpop : (s.segments i).id ≠ 0) :
    (s.segments i).from_ ≠ (s.segments i).to_ ∧
      (s.segments i).from_ ≤ MAX_ID_NODE ∧ (s.nodes (s.segments i).from_).id ≠ 0 ∧
      (s.segments i).to_ ≤ MAX_ID_NODE ∧ (s.nodes (s.segments i).to_).id ≠ 0 := by
  obtain ⟨a, b, c, d, e⟩ := (reachable_storeInv env g sd s hreach).segEnds i hpop
  exact ⟨a, Nat.le_of_lt b, c, Nat.le_of_lt d, e⟩

/-- C19 at the edge `1` stored after the points `1` and `2`. -/
theorem reachable_edges_join_two_populated_points_witness :
    (edgeStored.segments 1).from_ ≠ (edgeStored.segments 1).to_ ∧
      (edgeStored.segments 1).from_ ≤ MAX_ID_NODE ∧
      (edgeStored.nodes (edgeStored.segments 1).from_).id ≠ 0 ∧
      (edgeStored.segments 1).to_ ≤ MAX_ID_NODE ∧
      (edgeStored.nodes (edgeStored.segments 1).to_).id ≠ 0 :=
  reachable_edges_join_two_populated_points (sampleEnv []) ([], []) true edgeStored
    edgeStored_reachable 1 (by decide)

/-- In a reachable state every child reference reads back as the identifier it was
written from. -/
theorem StoreInv.segs_value {env : Env} {s : State env} (hinv : StoreInv s) (kv : keyval)
    (hkv : kv ∈ s.segs) :
    kv.key = "id" ∧ kv.value = fmt_d (strtoulUInt kv.value) ∧
      strtoulUInt kv.value < MAX_ID_SEGMENT ∧ (s.segments (strtoulUInt kv.value)).id ≠ 0 := by
  obtain ⟨hk, c, hc1, hc2, hc3⟩ := hinv.segsRef kv hkv
  have hlt : c < 2 ^ 31 := by unfold MAX_ID_SEGMENT at hc2; omega
  have hrt : strtoulUInt kv.value = c := by rw [hc1]; exact strtoulUInt_fmt_d c hlt
  rw [hrt]
  exact ⟨hk, hc1, hc2, hc3⟩

/-- C12: in a reachable state, a child-reference leaf whose id resolves to a stored edge
with canonical identifier `c` returns; if `c` is already in the child-reference list, the
list is unchanged and `count_way_seg` grows by exactly one; otherwise `c` is linked once,
as the text that reads back as `c`, and the counter is unchanged. And in every reachable
state the child-reference list holds no value twice. -/
theorem child_reference_is_recorded_once (env : Env) (g : env.Geom) (sd : Bool)
    (s : State env) (hreach : Reachable env g sd s) :
    (segIds s).Nodup ∧
      ∀ (reader : Reader) (xid : String),
        xmlTextReaderGetAttribute reader "id" = some xid →
        strtoulUInt xid ≠ 0 → strtoulUInt xid ≤ MAX_ID_SEGMENT →
        (s.segments (strtoulUInt xid)).id ≠ 0 →
        ∃ s2, StartElement env s reader "seg" = .ok s2 ∧
          ((s.segments (strtoulUInt xid)).id ∈ segIds s →
            s2.segs = s.segs ∧ s2.count_way_seg = s.count_way_seg + 1) ∧
          ((s.segments (strtoulUInt xid)).id ∉ segIds s →
            s2.segs = ⟨"id", fmt_d (s.segments (strtoulUInt xid)).id⟩ :: s.segs ∧
            segIds s2 = (s.segments (strtoulUInt xid)).id :: segIds s ∧
            s2.count_way_seg = s.count_way_seg) := by
  have hinv := reachable_storeInv env g sd s hreach
  constructor
  · unfold segIds
    have hmap : s.segs.map (fun kv => strtoulUInt kv.value) =
        (s.segs.map keyval.value).map strtoulUInt := by simp
    rw [hmap]
    apply List.Nodup.map_on _ hinv.segsNodup
    intro a ha b hb hab
    obtain ⟨kva, hkva, rfl⟩ := List.mem_map.1 ha
    obtain ⟨kvb, hkvb, rfl⟩ := List.mem_map.1 hb
    rw [(hinv.segs_value kva hkva).2.1, (hinv.segs_value kvb hkvb).2.1, hab]
  · intro reader xid hxid hid0 hidle hpop
    have hclt : (s.segments (strtoulUInt xid)).id < 2 ^ 31 := by
      have := hinv.segIdLt (strtoulUInt xid)
      unfold MAX_ID_SEGMENT at this
      omega
    have hrt := strtoulUInt_fmt_d _ hclt
    have hiff : addItemScan s.segs "id" (fmt_d (s.segments (strtoulUInt xid)).id) = true ↔
        (s.segments (strtoulUInt xid)).id ∈ segIds s := by
      constructor
      · intro hscan
        obtain ⟨item, hi, hv, _⟩ := addItemScan_true _ _ s.segs hscan
        unfold segIds
        rw [List.mem_map]
        exact ⟨item, hi, by rw [hv]; exact hrt⟩
      · intro hmem
        unfold segIds at hmem
        obtain ⟨kv, hkv, hval⟩ := List.mem_map.1 hmem
        obtain ⟨hk, hv, _, _⟩ := hinv.segs_value kv hkv
        cases hscan : addItemScan s.segs "id" (fmt_d (s.segments (strtoulUInt xid)).id) with
        | true => rfl
        | false =>
          exfalso
          apply addItemScan_false _ _ s.segs hscan kv hkv
          exact ⟨by rw [hv, hval], hk⟩
    rw [StartElement_seg_eq]
    unfold StartElement_seg
    rw [hxid]
    have hguard : ¬ (strtoulUInt xid = 0 ∨ strtoulUInt xid > MAX_ID_SEGMENT) := by
      intro h
      rcases h with h | h
      · exact hid0 h
      · exact absurd hidle (Nat.not_le.2 h)
    simp only [hguard, hpop, if_false]
    by_cases hscan : addItemScan s.segs "id" (fmt_d (s.segments (strtoulUInt xid)).id) = true
    · have hadd : addItem s.segs "id" (fmt_d (s.segments (strtoulUInt xid)).id) true =
          (1, s.segs) := by simp [addItem, hscan]
      rw [hadd]
      simp only [ne_eq, one_ne_zero, not_false_eq_true, if_true]
      exact ⟨_, rfl, fun _ => ⟨rfl, rfl⟩, fun hno => absurd (hiff.1 hscan) hno⟩
    · have hadd : addItem s.segs "id" (fmt_d (s.segments (strtoulUInt xid)).id) true =
          (0, ⟨"id", fmt_d (s.segments (strtoulUInt xid)).id⟩ :: s.segs) := by
        simp [addItem, hscan]
      rw [hadd]
      simp only [ne_eq, not_true_eq_false, if_false]
      refine ⟨_, rfl, fun hin => absurd (hiff.2 hin) hscan, fun _ => ⟨rfl, ?_, rfl⟩⟩
      unfold segIds
      simp only [List.map_cons, hrt]

/-- C12 at the reachable state in which the reference to edge `1` is captured already. -/
theorem child_reference_is_recorded_once_witness :
    (segIds refCaptured).Nodup ∧
      ∀ (reader : Reader) (xid : String),
        xmlTextReaderGetAttribute reader "id" = some xid →
        strtoulUInt xid ≠ 0 → strtoulUInt xid ≤ MAX_ID_SEGMENT →
        (refCaptured.segments (strtoulUInt xid)).id ≠ 0 →
        ∃ s2, StartElement (sampleEnv []) refCaptured reader "seg" = .ok s2 ∧
          ((refCaptured.segments (strtoulUInt xid)).id ∈ segIds refCaptured →
            s2.segs = refCaptured.segs ∧
              s2.count_way_seg = refCaptured.count_way_seg + 1) ∧
          ((refCaptured.segments (strtoulUInt xid)).id ∉ segIds refCaptured →
            s2.segs = ⟨"id", fmt_d (refCaptured.segments (strtoulUInt xid)).id⟩ ::
                refCaptured.segs ∧
            segIds s2 = (refCaptured.segments (strtoulUInt xid)).id :: segIds refCaptured ∧
            s2.count_way_seg = refCaptured.count_way_seg) :=
  child_reference_is_recorded_once (sampleEnv []) ([], []) true refCaptured refCaptured_reachable

/-- The example of C12: a second `<seg id="1">` leaves the list with its one entry and
counts one duplicate reference. -/
theorem repeated_reference_is_counted :
    (StartElement (sampleEnv []) refCaptured (idReader "1") "seg").state.segs = [⟨"id", "1"⟩] ∧
      (StartElement (sampleEnv []) refCaptured (idReader "1") "seg").state.count_way_seg = 1 ∧
      refCaptured.segs = [⟨"id", "1"⟩] ∧ refCaptured.count_way_seg = 0 := by
  decide

/-! ## The geometry feed -/

/-- With every reference in range the loop of `WKT` pops every entry and makes one
`add_segment` call for each, in the order of the list. -/
theorem WKT_loop_calls (env : Env) :
    ∀ (l : List keyval) (s : State env),
      (∀ p ∈ l, strtoulUInt p.value ≤ MAX_ID_SEGMENT ∧
        (s.segments (strtoulUInt p.value)).from_ ≤ MAX_ID_NODE ∧
        (s.segments (strtoulUInt p.value)).to_ ≤ MAX_ID_NODE) →
      ∃ s0, WKT_loop env l s = .ok s0 ∧ s0.segs = [] ∧
        s0.calls = s.calls ++ l.map (segmentCall s.nodes s.segments) := by
  intro l
  induction l with
  | nil => intro s _; exact ⟨_, rfl, rfl, by simp⟩
  | cons p rest ih =>
    intro s hs
    obtain ⟨h1, h2, h3⟩ := hs p (List.mem_cons_self _ _)
    unfold WKT_loop
    simp only [Nat.not_lt.2 h1, Nat.not_lt.2 h2, Nat.not_lt.2 h3, gt_iff_lt, if_false]
    obtain ⟨s0, hrun, hsegs, hcalls⟩ := ih
      { s with
        segs := rest
        geom := env.add_segment s.geom (s.nodes (s.segments (strtoulUInt p.value)).from_).lon
          (s.nodes (s.segments (strtoulUInt p.value)).from_).lat
          (s.nodes (s.segments (strtoulUInt p.value)).to_).lon
          (s.nodes (s.segments (strtoulUInt p.value)).to_).lat
        calls := s.calls ++ [.add_segment (s.nodes (s.segments (strtoulUInt p.value)).from_).lon
          (s.nodes (s.segments (strtoulUInt p.value)).from_).lat
          (s.nodes (s.segments (strtoulUInt p.value)).to_).lon
          (s.nodes (s.segments (strtoulUInt p.value)).to_).lat] }
      (fun q hq => hs q (List.mem_cons_of_mem _ hq))
    refine ⟨s0, hrun, hsegs, ?_⟩
    rw [hcalls]
    simp [segmentCall]

/-- C20: in every state reachable by events that do not fail, the geometry feed `WKT` is
safe and ends. Every value of the child-reference list reads back as the index, within the
edge store, of a populated edge slot whose `from` and `to` are indices, within the point
store, of populated point slots; the loop makes exactly one `add_segment` call per
reference, and the list is empty in the state in which `build_geometry` is called. -/
theorem geometry_feed_is_safe (env : Env) (g : env.Geom) (sd : Bool) (s : State env)
    (hreach : Reachable env g sd s) (polygon : Nat) :
    (∀ kv ∈ s.segs,
        strtoulUInt kv.value ≤ MAX_ID_SEGMENT ∧ (s.segments (strtoulUInt kv.value)).id ≠ 0 ∧
        (s.segments (strtoulUInt kv.value)).from_ ≤ MAX_ID_NODE ∧
        (s.nodes (s.segments (strtoulUInt kv.value)).from_).id ≠ 0 ∧
        (s.segments (strtoulUInt kv.value)).to_ ≤ MAX_ID_NODE ∧
        (s.nodes (s.segments (strtoulUInt kv.value)).to_).id ≠ 0) ∧
      ∃ s0, WKT_loop env s.segs s = .ok s0 ∧ s0.segs = [] ∧
        s0.calls = s.calls ++ s.segs.map (segmentCall s.nodes s.segments) ∧
        WKT env s polygon =
          (.ok { s0 with
                 geom := (env.build_geometry s0.geom polygon).1
                 calls := s0.calls ++ [.build_geometry polygon] },
            (env.build_geometry s0.geom polygon).2) := by
  have hinv := reachable_storeInv env g sd s hreach
  have hall : ∀ kv ∈ s.segs,
      strtoulUInt kv.value ≤ MAX_ID_SEGMENT ∧ (s.segments (strtoulUInt kv.value)).id ≠ 0 ∧
      (s.segments (strtoulUInt kv.value)).from_ ≤ MAX_ID_NODE ∧
      (s.nodes (s.segments (strtoulUInt kv.value)).from_).id ≠ 0 ∧
      (s.segments (strtoulUInt kv.value)).to_ ≤ MAX_ID_NODE ∧
      (s.nodes (s.segments (strtoulUInt kv.value)).to_).id ≠ 0 := by
    intro kv hkv
    obtain ⟨_, _, hlt, hpop⟩ := hinv.segs_value kv hkv
    obtain ⟨_, b, c, d, e⟩ := hinv.segEnds _ hpop
    exact ⟨Nat.le_of_lt hlt, hpop, Nat.le_of_lt b, c, Nat.le_of_lt d, e⟩
  refine ⟨hall, ?_⟩
  obtain ⟨s0, hrun, hsegs, hcalls⟩ := WKT_loop_calls env s.segs s
    (fun p hp => ⟨(hall p hp).1, (hall p hp).2.2.1, (hall p hp).2.2.2.2.1⟩)
  refine ⟨s0, hrun, hsegs, hcalls, ?_⟩
  unfold WKT
  rw [hrun]

/-- C20 at the reachable state in which the reference to edge `1` is captured. -/
theorem geometry_feed_is_safe_witness :
    (∀ kv ∈ refCaptured.segs,
        strtoulUInt kv.value ≤ MAX_ID_SEGMENT ∧
        (refCaptured.segments (strtoulUInt kv.value)).id ≠ 0 ∧
        (refCaptured.segments (strtoulUInt kv.value)).from_ ≤ MAX_ID_NODE ∧
        (refCaptured.nodes (refCaptured.segments (strtoulUInt kv.value)).from_).id ≠ 0 ∧
        (refCaptured.segments (strtoulUInt kv.value)).to_ ≤ MAX_ID_NODE ∧
        (refCaptured.nodes (refCaptured.segments (strtoulUInt kv.value)).to_).id ≠ 0) ∧
      ∃ s0, WKT_loop (sampleEnv []) refCaptured.segs refCaptured = .ok s0 ∧ s0.segs = [] ∧
        s0.calls = refCaptured.calls ++
          refCaptured.segs.map (segmentCall refCaptured.nodes refCaptured.segments) ∧
        WKT (sampleEnv []) refCaptured 0 =
          (.ok { s0 with
                 geom := ((sampleEnv []).build_geometry s0.geom 0).1
                 calls := s0.calls ++ [.build_geometry 0] },
            ((sampleEnv []).build_geometry s0.geom 0).2) :=
  geometry_feed_is_safe (sampleEnv []) ([], []) true refCaptured refCaptured_reachable 0

/-! ## The assertion on a produced geometry -/

/-- The test `assert(way->wkt[i])` passes exactly when the geometry index `i` is below the
length of the text. -/
theorem assertWktChar_eq_none (wkt : String) (i : Nat) :
    assertWktChar wkt i = none ↔ i < wkt.length := by
  unfold assertWktChar
  split
  · rename_i h; simp [h]
  · rename_i h
    split <;> simp [h]

/-- With duplicate suppression enabled, a round of the loop over the produced geometries
fails as soon as the non-empty text of its index is not longer than the index. -/
theorem wayLoop_asserts_on_index (env : Env) (id : Nat) (names osm_id values : String)
    (n i : Nat) (s : State env) (hon : s.suppress_dupes = true)
    (hne : (env.get_wkt s.geom i).length ≠ 0) (hshort : (env.get_wkt s.geom i).length ≤ i) :
    (wayLoop env id names osm_id values (n + 1) i s).isOk = false := by
  unfold wayLoop
  simp only [hne, hon, ne_eq, not_false_eq_true, if_true]
  have hf : assertWktChar (env.get_wkt s.geom i) i ≠ none := by
    rw [ne_eq, assertWktChar_eq_none]
    omega
  cases ha : assertWktChar (env.get_wkt s.geom i) i with
  | none => exact absurd ha hf
  | some f => rfl

/-- C21, the code at a shape `5` tagged `highway=residential` with one child reference, for
which the geometry builder returns twenty non-empty texts of 19 characters, duplicate
suppression enabled: at the geometry index `19` the test `assert(way->wkt[i])` reads the
character at index `19` of the text, which is its terminating NUL, and the run aborts
although the text is not empty. -/
theorem shape_end_asserts_on_geometry_index :
    (∀ t ∈ twentyLines, t.length = 19) ∧
      ∃ s2, EndElement (sampleEnv twentyLines)
          (shapeWithTag twentyLines true "highway" "residential") "way" =
            .fault (.assertFailed 529) s2 ∧
        s2.calls.getLast? = some (.get_wkt 19) := by
  refine ⟨by decide, _, rfl, by decide⟩

/-- Past the terminating NUL the same test leaves the text: with a text of 19 characters at
the geometry index `20`, `way->wkt[20]` is read beyond the copy of the text. -/
theorem shape_end_reads_past_geometry_text :
    ∃ s2, EndElement (sampleEnv twentyOneLines)
        (shapeWithTag twentyOneLines true "highway" "residential") "way" =
          .fault (.outOfRange 529) s2 ∧
      s2.calls.getLast? = some (.get_wkt 20) := by
  refine ⟨_, rfl, by decide⟩

end Osm2pgsql
